import Mathlib

/-!
Verification of the winding-number library: a shallow embedding of the
2D point-in-polygon engine (`point_in_polygon.py`) and the 3D
point-in-polyhedron engine (`polyhedron.py`), with exact rational
coordinates.  Fallible operations (the Python code raises `ValueError`
on boundary coincidences) are modelled with `Option`: `none` is an
error, `some n` a normal return.
-/

/-- Exact 2D point with rational coordinates. -/
structure Point2 where
  x : ℚ
  y : ℚ
deriving DecidableEq

/-- Exact 3D point with rational coordinates. -/
structure Point3 where
  x : ℚ
  y : ℚ
  z : ℚ
deriving DecidableEq

/-- Python tuple comparison `p < q` on 2-tuples (strict lexicographic order). -/
def lexLtB (p q : Point2) : Bool :=
  if p.x < q.x then true
  else if p.x = q.x ∧ p.y < q.y then true
  else false

/-- `ccw p1 p2 p3` from `point_in_polygon.py`: 1 for a counterclockwise turn,
-1 for a clockwise turn, 0 when the three points are collinear. -/
def ccw (p1 p2 p3 : Point2) : Int :=
  if (p2.y - p3.y) * (p1.x - p3.x) - (p2.x - p3.x) * (p1.y - p3.y) = 0 then 0
  else if (p2.y - p3.y) * (p1.x - p3.x) - (p2.x - p3.x) * (p1.y - p3.y) > 0 then 1
  else -1

/-- `half_turn` from `point_in_polygon.py`: the contribution of the edge
from `point1` to `point2` to the winding number about `origin`; `none`
models the `ValueError` raised when a vertex coincides with the origin or
the segment passes through it. -/
def half_turn (point1 point2 origin : Point2) : Option Int :=
  if point1 = origin ∨ point2 = origin then none
  else if lexLtB point1 origin = lexLtB point2 origin then some 0
  else if ccw point1 point2 origin = 0 then none
  else some (ccw point1 point2 origin)

/-- The edge list `zip(polygon, polygon[1:] + polygon[:1])` of
`winding_number` in `point_in_polygon.py`. -/
def polygonEdges (polygon : List Point2) : List (Point2 × Point2) :=
  polygon.zip (polygon.drop 1 ++ polygon.take 1)

/-- The sum `sum(half_turn(point1, point2, origin) for ...)`, with a raised
`ValueError` in any summand propagating to the whole sum. -/
def sumHalfTurns (edges : List (Point2 × Point2)) (origin : Point2) : Option Int :=
  match edges with
  | [] => some 0
  | e :: rest =>
    match half_turn e.1 e.2 origin, sumHalfTurns rest origin with
    | some h, some s => some (h + s)
    | _, _ => none

/-- `winding_number` from `point_in_polygon.py`; Python `// 2` is floor
division, `Int.fdiv`. -/
def winding_number (polygon : List Point2) (origin : Point2) : Option Int :=
  match sumHalfTurns (polygonEdges polygon) origin with
  | some s => some (s.fdiv 2)
  | none => none

/-- `sign` from `polyhedron.py`: `(x > 0) - (x < 0)`. -/
def sign (x : ℚ) : Int :=
  (if 0 < x then 1 else 0) - (if x < 0 then 1 else 0)

/-- Python `a or b` on integers: `b` if `a` is zero, else `a`. -/
def orI (a b : Int) : Int :=
  if a = 0 then b else a

/-- `if not result: raise ValueError(...); return result`. -/
def nzOpt (r : Int) : Option Int :=
  if r = 0 then none else some r

/-- `vertex_sign` from `polyhedron.py`. -/
def vertex_sign (P O : Point3) : Option Int :=
  nzOpt (orI (sign (P.x - O.x)) (orI (sign (P.y - O.y)) (sign (P.z - O.z))))

/-- `edge_sign` from `polyhedron.py` (the debug `print` there has no effect
on the returned value and is not representable in a pure embedding). -/
def edge_sign (P Q O : Point3) : Option Int :=
  nzOpt (orI (sign ((P.x - O.x) * (Q.y - O.y) - (P.y - O.y) * (Q.x - O.x)))
    (orI (sign ((P.x - O.x) * (Q.z - O.z) - (P.z - O.z) * (Q.x - O.x)))
      (sign ((P.y - O.y) * (Q.z - O.z) - (P.z - O.z) * (Q.y - O.y)))))

/-- `triangle_sign` from `polyhedron.py`. -/
def triangle_sign (P Q R O : Point3) : Option Int :=
  nzOpt (sign (((P.x - O.x) * (Q.y - O.y) - (P.y - O.y) * (Q.x - O.x)) * (R.z - O.z) +
    ((Q.x - O.x) * (R.y - O.y) - (Q.y - O.y) * (R.x - O.x)) * (P.z - O.z) +
    ((R.x - O.x) * (P.y - O.y) - (R.y - O.y) * (P.x - O.x)) * (Q.z - O.z)))

/-- `triangle_chain` from `polyhedron.py`: the contribution of one triangle
to the winding number about `origin`. -/
def triangle_chain (v1 v2 v3 origin : Point3) : Option Int :=
  match vertex_sign v1 origin, vertex_sign v2 origin, vertex_sign v3 origin with
  | some v1sign, some v2sign, some v3sign =>
    match (if v1sign ≠ v2sign then edge_sign v1 v2 origin else some 0),
          (if v2sign ≠ v3sign then edge_sign v2 v3 origin else some 0),
          (if v3sign ≠ v1sign then edge_sign v3 v1 origin else some 0) with
    | some fb1, some fb2, some fb3 =>
      if fb1 + fb2 + fb3 = 0 then some 0
      else triangle_sign v1 v2 v3 origin
    | _, _, _ => none
  | _, _, _ => none

/-- A polyhedron: vertex positions in R^3 plus triangles given as triples of
indices into the vertex table, counterclockwise around the outside. -/
structure Polyhedron where
  vertex_positions : List Point3
  triangles : List (Nat × Nat × Nat)

/-- Looks every triangle's indices up in the vertex table (an out-of-range
index, an `IndexError` in Python, is modelled as `none`). -/
def lookupTris (vp : List Point3) :
    List (Nat × Nat × Nat) → Option (List (Point3 × Point3 × Point3))
  | [] => some []
  | t :: ts =>
    match vp[t.1]?, vp[t.2.1]?, vp[t.2.2]?, lookupTris vp ts with
    | some a, some b, some c, some rest => some ((a, b, c) :: rest)
    | _, _, _, _ => none

/-- `Polyhedron.triangle_positions`: triples of vertex positions. -/
def triangle_positions (p : Polyhedron) : Option (List (Point3 × Point3 × Point3)) :=
  lookupTris p.vertex_positions p.triangles

/-- The sum of `triangle_chain` over a list of triangles, errors propagating. -/
def sumChains (tris : List (Point3 × Point3 × Point3)) (origin : Point3) : Option Int :=
  match tris with
  | [] => some 0
  | t :: rest =>
    match triangle_chain t.1 t.2.1 t.2.2 origin, sumChains rest origin with
    | some h, some s => some (h + s)
    | _, _ => none

/-- The chain sum of a polyhedron around a point, before the final halving. -/
def meshChainSum (p : Polyhedron) (point : Point3) : Option Int :=
  match triangle_positions p with
  | some tris => sumChains tris point
  | none => none

/-- `Polyhedron.winding_number` from `polyhedron.py`. -/
def Polyhedron.winding_number (p : Polyhedron) (point : Point3) : Option Int :=
  match meshChainSum p point with
  | some s => some (s.fdiv 2)
  | none => none

/-- The accumulator loop of `Polyhedron.volume`: `acc += det * height`. -/
def volAcc : List (Point3 × Point3 × Point3) → ℚ
  | [] => 0
  | (p1, p2, p3) :: rest =>
    ((p2.y - p3.y) * (p1.x - p3.x) - (p2.x - p3.x) * (p1.y - p3.y)) *
      (p1.z + p2.z + p3.z) + volAcc rest

/-- `Polyhedron.volume` from `polyhedron.py`: `acc / 6`. -/
def Polyhedron.volume (p : Polyhedron) : Option ℚ :=
  match triangle_positions p with
  | some tris => some (volAcc tris / 6)
  | none => none

/-- The regular tetrahedron of `test_polyhedron.py`. -/
def tetrahedron : Polyhedron where
  vertex_positions := [⟨0, 0, 0⟩, ⟨0, 1, 1⟩, ⟨1, 0, 1⟩, ⟨1, 1, 0⟩]
  triangles := [(0, 1, 3), (0, 2, 1), (0, 3, 2), (1, 2, 3)]

/-- The cube of `test_polyhedron.py`, vertices at all combinations of
(±1, ±1, ±1). -/
def cube : Polyhedron where
  vertex_positions :=
    [⟨-1, -1, -1⟩, ⟨-1, -1, 1⟩, ⟨-1, 1, -1⟩, ⟨-1, 1, 1⟩,
     ⟨1, -1, -1⟩, ⟨1, -1, 1⟩, ⟨1, 1, -1⟩, ⟨1, 1, 1⟩]
  triangles :=
    [(1, 3, 2), (1, 0, 4), (1, 5, 7),
     (2, 0, 1), (2, 6, 4), (2, 3, 7),
     (4, 5, 1), (4, 0, 2), (4, 6, 7),
     (7, 3, 1), (7, 6, 2), (7, 5, 4)]

/-- A mesh with every triangle's vertex order reversed. -/
def reverseMesh (p : Polyhedron) : Polyhedron where
  vertex_positions := p.vertex_positions
  triangles := p.triangles.map (fun t => (t.2.2, t.2.1, t.1))

/-! ### Basic lemmas about the sign primitive -/

theorem sign_zero_iff (x : ℚ) : sign x = 0 ↔ x = 0 := by
  unfold sign
  rcases lt_trichotomy x 0 with h | h | h
  · simp [h, not_lt.mpr h.le, h.ne]
  · simp [h]
  · simp [h, not_lt.mpr h.le, h.ne']

theorem sign_cases (x : ℚ) : sign x = 1 ∨ sign x = 0 ∨ sign x = -1 := by
  unfold sign
  rcases lt_trichotomy x 0 with h | h | h
  · simp [h, not_lt.mpr h.le]
  · simp [h]
  · simp [h, not_lt.mpr h.le]

theorem sign_pos_mul (t x : ℚ) (ht : 0 < t) : sign (t * x) = sign x := by
  unfold sign
  rcases lt_trichotomy x 0 with h | h | h
  · simp [mul_neg_of_pos_of_neg ht h, not_lt.mpr (mul_neg_of_pos_of_neg ht h).le, h,
      not_lt.mpr h.le]
  · simp [h]
  · simp [mul_pos ht h, not_lt.mpr (mul_pos ht h).le, h, not_lt.mpr h.le]

theorem sign_neg_arg (x : ℚ) : sign (-x) = -(sign x) := by
  unfold sign
  rcases lt_trichotomy x 0 with h | h | h
  · simp [h, not_lt.mpr h.le, neg_pos.mpr h]
  · simp [h]
  · simp [h, not_lt.mpr h.le, neg_neg_iff_pos.mpr h, neg_lt_zero.mpr h]

theorem orI_zero_iff (a b : Int) : orI a b = 0 ↔ a = 0 ∧ b = 0 := by
  unfold orI
  by_cases h : a = 0 <;> simp [h]

theorem nzOpt_eq_none_iff (r : Int) : nzOpt r = none ↔ r = 0 := by
  unfold nzOpt
  by_cases h : r = 0 <;> simp [h]

theorem nzOpt_eq_some_iff (r s : Int) : nzOpt r = some s ↔ r ≠ 0 ∧ s = r := by
  unfold nzOpt
  by_cases h : r = 0 <;> simp [h, eq_comm]

/-! ### Claim C3: edge_sign is the priority cascade of three determinants -/

theorem cross_zero_iff_dep (a1 a2 a3 b1 b2 b3 : ℚ) :
    (a1 * b2 - a2 * b1 = 0 ∧ a1 * b3 - a3 * b1 = 0 ∧ a2 * b3 - a3 * b2 = 0) ↔
    ∃ t u : ℚ, ¬(t = 0 ∧ u = 0) ∧ t * a1 + u * b1 = 0 ∧ t * a2 + u * b2 = 0 ∧
      t * a3 + u * b3 = 0 := by
  constructor
  · rintro ⟨d1, d2, d3⟩
    by_cases ha1 : a1 = 0
    · by_cases ha2 : a2 = 0
      · by_cases ha3 : a3 = 0
        · exact ⟨1, 0, by simp, by simp [ha1], by simp [ha2], by simp [ha3]⟩
        · refine ⟨b3, -a3, fun h => ha3 (by simpa using h.2), ?_, ?_, by ring⟩
          · subst ha1; linear_combination d2
          · subst ha2; linear_combination d3
      · refine ⟨b2, -a2, fun h => ha2 (by simpa using h.2), ?_, by ring, ?_⟩
        · subst ha1; linear_combination d1
        · linear_combination -d3
    · refine ⟨b1, -a1, fun h => ha1 (by simpa using h.2), by ring, ?_, ?_⟩
      · linear_combination -d1
      · linear_combination -d2
  · rintro ⟨t, u, htu, e1, e2, e3⟩
    by_cases hu : u = 0
    · have ht : t ≠ 0 := fun h => htu ⟨h, hu⟩
      subst hu
      have ha1 : a1 = 0 := by
        have h := e1; simp only [zero_mul, add_zero] at h
        simpa [ht] using mul_eq_zero.mp h
      have ha2 : a2 = 0 := by
        have h := e2; simp only [zero_mul, add_zero] at h
        simpa [ht] using mul_eq_zero.mp h
      have ha3 : a3 = 0 := by
        have h := e3; simp only [zero_mul, add_zero] at h
        simpa [ht] using mul_eq_zero.mp h
      exact ⟨by simp [ha1, ha2], by simp [ha1, ha3], by simp [ha2, ha3]⟩
    · refine ⟨?_, ?_, ?_⟩
      · have h : u * (a1 * b2 - a2 * b1) = 0 := by linear_combination a1 * e2 - a2 * e1
        exact (mul_eq_zero.mp h).resolve_left hu
      · have h : u * (a1 * b3 - a3 * b1) = 0 := by linear_combination a1 * e3 - a3 * e1
        exact (mul_eq_zero.mp h).resolve_left hu
      · have h : u * (a2 * b3 - a3 * b2) = 0 := by linear_combination a2 * e3 - a3 * e2
        exact (mul_eq_zero.mp h).resolve_left hu

theorem edge_sign_none_iff_dets (P Q O : Point3) :
    edge_sign P Q O = none ↔
      (P.x - O.x) * (Q.y - O.y) - (P.y - O.y) * (Q.x - O.x) = 0 ∧
      (P.x - O.x) * (Q.z - O.z) - (P.z - O.z) * (Q.x - O.x) = 0 ∧
      (P.y - O.y) * (Q.z - O.z) - (P.z - O.z) * (Q.y - O.y) = 0 := by
  simp [edge_sign, nzOpt_eq_none_iff, orI_zero_iff, sign_zero_iff]

/-- Claim C3: for all 3D points `v1, v2` and query point `O`, `edge_sign`
returns the sign of the first nonzero of the three 2x2 determinants taken in
priority order (x,y) projections, then (x,z), then (y,z), of `v1 - O` and
`v2 - O`; and it errors exactly when all three determinants vanish,
equivalently when the two vertices are collinear with the query point
(`v1 - O` and `v2 - O` are linearly dependent). -/
theorem edge_sign_spec (P Q O : Point3) :
    (edge_sign P Q O =
      if (P.x - O.x) * (Q.y - O.y) - (P.y - O.y) * (Q.x - O.x) ≠ 0 then
        some (sign ((P.x - O.x) * (Q.y - O.y) - (P.y - O.y) * (Q.x - O.x)))
      else if (P.x - O.x) * (Q.z - O.z) - (P.z - O.z) * (Q.x - O.x) ≠ 0 then
        some (sign ((P.x - O.x) * (Q.z - O.z) - (P.z - O.z) * (Q.x - O.x)))
      else if (P.y - O.y) * (Q.z - O.z) - (P.z - O.z) * (Q.y - O.y) ≠ 0 then
        some (sign ((P.y - O.y) * (Q.z - O.z) - (P.z - O.z) * (Q.y - O.y)))
      else none)
    ∧ (edge_sign P Q O = none ↔
      ∃ t u : ℚ, ¬(t = 0 ∧ u = 0) ∧
        t * (P.x - O.x) + u * (Q.x - O.x) = 0 ∧
        t * (P.y - O.y) + u * (Q.y - O.y) = 0 ∧
        t * (P.z - O.z) + u * (Q.z - O.z) = 0) := by
  constructor
  · by_cases h1 : (P.x - O.x) * (Q.y - O.y) - (P.y - O.y) * (Q.x - O.x) = 0 <;>
      by_cases h2 : (P.x - O.x) * (Q.z - O.z) - (P.z - O.z) * (Q.x - O.x) = 0 <;>
      by_cases h3 : (P.y - O.y) * (Q.z - O.z) - (P.z - O.z) * (Q.y - O.y) = 0 <;>
      simp [edge_sign, nzOpt, orI, sign_zero_iff, h1, h2, h3]
  · rw [edge_sign_none_iff_dets]
    exact cross_zero_iff_dep _ _ _ _ _ _

/-! ### Claim C2: triangle_chain follows the spec's four steps -/

theorem vertex_sign_pm (v O : Point3) (s : Int) (h : vertex_sign v O = some s) :
    s = 1 ∨ s = -1 := by
  rw [vertex_sign, nzOpt_eq_some_iff] at h
  obtain ⟨hne, hs⟩ := h
  subst hs
  unfold orI
  rcases sign_cases (v.x - O.x) with h1 | h1 | h1 <;>
    rcases sign_cases (v.y - O.y) with h2 | h2 | h2 <;>
    rcases sign_cases (v.z - O.z) with h3 | h3 | h3 <;>
    simp [h1, h2, h3] <;> simp [orI, h1, h2, h3] at hne

theorem nzOpt_sign_pm (x : ℚ) (c : Int) (h : nzOpt (sign x) = some c) :
    c = 1 ∨ c = -1 := by
  rw [nzOpt_eq_some_iff] at h
  rcases sign_cases x with hs | hs | hs
  · left; rw [h.2, hs]
  · exact absurd hs h.1
  · right; rw [h.2, hs]

theorem triangle_sign_pm (v1 v2 v3 O : Point3) (c : Int)
    (h : triangle_sign v1 v2 v3 O = some c) : c = 1 ∨ c = -1 := by
  rw [triangle_sign] at h
  exact nzOpt_sign_pm _ _ h

/-- The running total accumulated over the cyclic edges whose endpoints have
differing vertex signs (`face_boundary` in `triangle_chain`). -/
def faceBoundary (v1 v2 v3 origin : Point3) (s1 s2 s3 : Int) : Option Int :=
  match (if s1 ≠ s2 then edge_sign v1 v2 origin else some 0),
        (if s2 ≠ s3 then edge_sign v2 v3 origin else some 0),
        (if s3 ≠ s1 then edge_sign v3 v1 origin else some 0) with
  | some fb1, some fb2, some fb3 => some (fb1 + fb2 + fb3)
  | _, _, _ => none

/-- Claim C2: for every triangle `(v1, v2, v3)` and query point with no vertex
equal to the point (the three `vertex_sign`s succeed with values `s1 s2 s3`),
`triangle_chain` follows the spec's four steps: contribution 0 when all three
vertex signs agree (no edge evaluated); `edge_sign` accumulated exactly over the
cyclic edges with differing endpoint signs, at most two of which qualify;
contribution 0 when the accumulated `face_boundary` is 0; and otherwise the
contribution is `triangle_sign v1 v2 v3 origin`, a single +1 or -1. -/
theorem triangle_chain_follows_spec (v1 v2 v3 O : Point3) (s1 s2 s3 : Int)
    (h1 : vertex_sign v1 O = some s1) (h2 : vertex_sign v2 O = some s2)
    (h3 : vertex_sign v3 O = some s3) :
    ((s1 = s2 ∧ s2 = s3) → triangle_chain v1 v2 v3 O = some 0)
    ∧ ¬(s1 ≠ s2 ∧ s2 ≠ s3 ∧ s3 ≠ s1)
    ∧ (∀ fb, faceBoundary v1 v2 v3 O s1 s2 s3 = some fb →
        ((fb = 0 → triangle_chain v1 v2 v3 O = some 0)
         ∧ (fb ≠ 0 → triangle_chain v1 v2 v3 O = triangle_sign v1 v2 v3 O
              ∧ ∀ c, triangle_sign v1 v2 v3 O = some c → (c = 1 ∨ c = -1)))) := by
  refine ⟨?_, ?_, ?_⟩
  · rintro ⟨h12, h23⟩
    simp [triangle_chain, h1, h2, h3, h12, h23]
  · rcases vertex_sign_pm v1 O s1 h1 with e1 | e1 <;>
      rcases vertex_sign_pm v2 O s2 h2 with e2 | e2 <;>
      rcases vertex_sign_pm v3 O s3 h3 with e3 | e3 <;>
      subst e1 <;> subst e2 <;> subst e3 <;> simp
  · intro fb hfb
    cases hE1 : (if s1 ≠ s2 then edge_sign v1 v2 O else some 0) with
    | none => rw [faceBoundary, hE1] at hfb; simp at hfb
    | some fb1 =>
      cases hE2 : (if s2 ≠ s3 then edge_sign v2 v3 O else some 0) with
      | none => rw [faceBoundary, hE1, hE2] at hfb; simp at hfb
      | some fb2 =>
        cases hE3 : (if s3 ≠ s1 then edge_sign v3 v1 O else some 0) with
        | none => rw [faceBoundary, hE1, hE2, hE3] at hfb; simp at hfb
        | some fb3 =>
          rw [faceBoundary, hE1, hE2, hE3] at hfb
          simp only [Option.some.injEq] at hfb
          have hchain : triangle_chain v1 v2 v3 O =
              if fb1 + fb2 + fb3 = 0 then some 0 else triangle_sign v1 v2 v3 O := by
            simp only [triangle_chain, h1, h2, h3, hE1, hE2, hE3]
          refine ⟨?_, ?_⟩
          · intro hfb0
            rw [hchain, if_pos (by omega : fb1 + fb2 + fb3 = 0)]
          · intro hfbne
            refine ⟨?_, fun c hc => triangle_sign_pm v1 v2 v3 O c hc⟩
            rw [hchain, if_neg (by omega : ¬(fb1 + fb2 + fb3 = 0))]

/-- Witness for C2 at the tetrahedron face ((0,0,0), (0,1,1), (1,1,0)) and
query point (3/10, 3/10, 3/10), where the vertex signs are -1, -1, 1. -/
theorem triangle_chain_follows_spec_witness :
    (((-1 : Int) = -1 ∧ (-1 : Int) = 1) →
      triangle_chain ⟨0, 0, 0⟩ ⟨0, 1, 1⟩ ⟨1, 1, 0⟩ ⟨3/10, 3/10, 3/10⟩ = some 0)
    ∧ ¬((-1 : Int) ≠ -1 ∧ (-1 : Int) ≠ 1 ∧ (1 : Int) ≠ -1)
    ∧ (∀ fb, faceBoundary ⟨0, 0, 0⟩ ⟨0, 1, 1⟩ ⟨1, 1, 0⟩ ⟨3/10, 3/10, 3/10⟩ (-1) (-1) 1 =
          some fb →
        ((fb = 0 →
          triangle_chain ⟨0, 0, 0⟩ ⟨0, 1, 1⟩ ⟨1, 1, 0⟩ ⟨3/10, 3/10, 3/10⟩ = some 0)
         ∧ (fb ≠ 0 →
            triangle_chain ⟨0, 0, 0⟩ ⟨0, 1, 1⟩ ⟨1, 1, 0⟩ ⟨3/10, 3/10, 3/10⟩ =
              triangle_sign ⟨0, 0, 0⟩ ⟨0, 1, 1⟩ ⟨1, 1, 0⟩ ⟨3/10, 3/10, 3/10⟩
            ∧ ∀ c, triangle_sign ⟨0, 0, 0⟩ ⟨0, 1, 1⟩ ⟨1, 1, 0⟩ ⟨3/10, 3/10, 3/10⟩ = some c →
                (c = 1 ∨ c = -1)))) :=
  triangle_chain_follows_spec ⟨0, 0, 0⟩ ⟨0, 1, 1⟩ ⟨1, 1, 0⟩ ⟨3/10, 3/10, 3/10⟩ (-1) (-1) 1
    (by norm_num [vertex_sign, sign, orI, nzOpt])
    (by norm_num [vertex_sign, sign, orI, nzOpt])
    (by norm_num [vertex_sign, sign, orI, nzOpt])

/-! ### Claim C8: volume of the cube -/

/-- Claim C8: `Polyhedron.volume` — the sum over triangles of (twice the
signed area of the x-y projection) times (three times the average z-height),
divided by 6 — returns exactly 8 on the 12-triangle cube mesh with vertices
at all combinations of (±1, ±1, ±1). -/
theorem volume_cube : Polyhedron.volume cube = some 8 := by
  norm_num [Polyhedron.volume, triangle_positions, cube, lookupTris, volAcc]

/-! ### Claim C10: empty and one-vertex polygons -/

/-- Claim C10: for every query point, the 2D `winding_number` of the empty
polygon is 0 without error; and for a one-vertex polygon `[v]` with `v`
distinct from the query point it is 0 as well (the single degenerate edge
from `v` to itself lies in one half-plane and contributes 0). -/
theorem winding_number_empty_and_singleton :
    (∀ origin : Point2, winding_number [] origin = some 0)
    ∧ (∀ v origin : Point2, v ≠ origin → winding_number [v] origin = some 0) := by
  constructor
  · intro origin
    rfl
  · intro v origin h
    have hht : half_turn v v origin = some 0 := by
      rw [half_turn, if_neg (by simp [h]), if_pos rfl]
    simp [winding_number, polygonEdges, sumHalfTurns, hht]

/-- Witness for C10 at the one-vertex polygon [(1, 0)] and query point (0, 0). -/
theorem winding_number_singleton_witness :
    (⟨1, 0⟩ : Point2) ≠ ⟨0, 0⟩ ∧ winding_number [⟨1, 0⟩] ⟨0, 0⟩ = some 0 :=
  ⟨by simp [Point2.mk.injEq], winding_number_empty_and_singleton.2 ⟨1, 0⟩ ⟨0, 0⟩
    (by simp [Point2.mk.injEq])⟩

/-! ### Claim C9: the leftover debug print in edge_sign

The value-level embedding cannot express the `print("Edge: ", P, Q, result)`
statement on line 176 of `polyhedron.py`; the theorem below documents that the
edge-classification routine containing it is actually reached (a cyclic edge
with differing vertex signs exists) during the winding-number query of the
tetrahedron at (3/10, 3/10, 3/10), so that query performs the I/O. -/

/-- Claim C9 (failing-input evaluation): during
`tetrahedron.winding_number (3/10, 3/10, 3/10)`, triangle (0,1,3) has vertex
signs -1, -1, 1, so the differing-sign guard holds and `edge_sign` — the
routine with the debug print — executes and returns -1. -/
theorem edge_sign_executes_at_failing_input :
    vertex_sign ⟨0, 1, 1⟩ ⟨3/10, 3/10, 3/10⟩ = some (-1)
    ∧ vertex_sign ⟨1, 1, 0⟩ ⟨3/10, 3/10, 3/10⟩ = some 1
    ∧ edge_sign ⟨0, 1, 1⟩ ⟨1, 1, 0⟩ ⟨3/10, 3/10, 3/10⟩ = some (-1)
    ∧ Polyhedron.winding_number tetrahedron ⟨3/10, 3/10, 3/10⟩ = some 1 := by
  refine ⟨?_, ?_, ?_, ?_⟩ <;>
    norm_num [Polyhedron.winding_number, meshChainSum, triangle_positions, tetrahedron,
      lookupTris, sumChains, triangle_chain, vertex_sign, edge_sign, triangle_sign,
      sign, orI, nzOpt]

/-! ### Structure of the closed polygon's edge list -/

/-- Consecutive pairs of a list: the edges of the open path along it. -/
def pathEdges {α : Type} (l : List α) : List (α × α) :=
  l.zip l.tail

theorem zip_append_extra {α β : Type} :
    ∀ (l₁ : List α) (l₂ : List β) (ys : List α), l₂.length ≤ l₁.length →
      (l₁ ++ ys).zip l₂ = l₁.zip l₂
  | [], l₂, ys, h => by
    have h2 : l₂ = [] := List.eq_nil_of_length_eq_zero (Nat.le_zero.mp (by simpa using h))
    simp [h2]
  | a :: t, [], ys, h => by simp
  | a :: t, b :: s, ys, h => by
    simp only [List.cons_append, List.zip_cons_cons]
    rw [zip_append_extra t s ys (by simpa using h)]

theorem take_one_head {α : Type} (l : List α) : l.take 1 = l.head?.toList := by
  cases l <;> rfl

theorem polygonEdges_eq_path (l : List Point2) :
    polygonEdges l = pathEdges (l ++ l.take 1) := by
  cases l with
  | nil => rfl
  | cons a t =>
    show (a :: t).zip (t ++ [a]) = ((a :: t) ++ [a]).zip (t ++ [a])
    rw [zip_append_extra (a :: t) (t ++ [a]) [a] (by simp)]

theorem pathEdges_snoc {α : Type} :
    ∀ (l : List α) (x : α),
      pathEdges (l ++ [x]) = pathEdges l ++ ((l.getLast?).map (fun b => (b, x))).toList
  | [], x => rfl
  | [a], x => rfl
  | a :: b :: t, x => by
    show (a, b) :: pathEdges ((b :: t) ++ [x]) = ((a, b) :: pathEdges (b :: t)) ++ _
    rw [pathEdges_snoc (b :: t) x]
    simp [List.getLast?_cons_cons]

theorem pathEdges_reverse {α : Type} :
    ∀ l : List α, pathEdges l.reverse = ((pathEdges l).map Prod.swap).reverse
  | [] => rfl
  | [a] => rfl
  | a :: b :: t => by
    have h1 : (a :: b :: t).reverse = (b :: t).reverse ++ [a] := by simp
    rw [h1, pathEdges_snoc, pathEdges_reverse (b :: t)]
    show _ = (((a, b) :: pathEdges (b :: t)).map Prod.swap).reverse
    simp [List.getLast?_reverse]

/-- The extra edge joining two abutted paths. -/
def glue {α : Type} (A B : List α) : List (α × α) :=
  match A.getLast?, B.head? with
  | some a, some b => [(a, b)]
  | _, _ => []

theorem pathEdges_append {α : Type} :
    ∀ A B : List α, pathEdges (A ++ B) = pathEdges A ++ glue A B ++ pathEdges B
  | [], B => by simp [pathEdges, glue]
  | [a], B => by
    cases B with
    | nil => simp [pathEdges, glue]
    | cons b s =>
      show (a, b) :: pathEdges (b :: s) = pathEdges [a] ++ glue [a] (b :: s) ++ pathEdges (b :: s)
      simp [pathEdges, glue]
  | a :: c :: t, B => by
    show (a, c) :: pathEdges ((c :: t) ++ B) =
      ((a, c) :: pathEdges (c :: t)) ++ glue (a :: c :: t) B ++ pathEdges B
    rw [pathEdges_append (c :: t) B]
    have hg : glue (a :: c :: t) B = glue (c :: t) B := by
      simp [glue, List.getLast?_cons_cons]
    rw [hg]
    simp

theorem polygonEdges_closed (a : Point2) (t : List Point2) :
    ∃ b, (a :: t).getLast? = some b ∧
      polygonEdges (a :: t) = pathEdges (a :: t) ++ [(b, a)] := by
  obtain ⟨b, hb⟩ := Option.isSome_iff_exists.mp
    (List.getLast?_isSome.mpr (List.cons_ne_nil a t))
  refine ⟨b, hb, ?_⟩
  rw [polygonEdges_eq_path]
  show pathEdges ((a :: t) ++ [a]) = _
  rw [pathEdges_snoc, hb]
  rfl

/-! ### Algebra of the error-propagating edge sum -/

/-- Addition on `Option Int` with errors propagating. -/
def optAdd (x y : Option Int) : Option Int :=
  match x, y with
  | some a, some b => some (a + b)
  | _, _ => none

theorem sumHalfTurns_cons (e : Point2 × Point2) (l : List (Point2 × Point2)) (O : Point2) :
    sumHalfTurns (e :: l) O = optAdd (half_turn e.1 e.2 O) (sumHalfTurns l O) := by
  cases h1 : half_turn e.1 e.2 O <;> cases h2 : sumHalfTurns l O <;>
    simp [sumHalfTurns, optAdd, h1, h2]

theorem sumHalfTurns_append (l₁ l₂ : List (Point2 × Point2)) (O : Point2) :
    sumHalfTurns (l₁ ++ l₂) O = optAdd (sumHalfTurns l₁ O) (sumHalfTurns l₂ O) := by
  induction l₁ with
  | nil => cases h : sumHalfTurns l₂ O <;> simp [sumHalfTurns, optAdd, h]
  | cons e t ih =>
    show sumHalfTurns (e :: (t ++ l₂)) O = _
    rw [sumHalfTurns_cons, ih, sumHalfTurns_cons]
    cases half_turn e.1 e.2 O <;> cases sumHalfTurns t O <;> cases sumHalfTurns l₂ O <;>
      simp [optAdd, add_assoc]

theorem sumHalfTurns_perm {l₁ l₂ : List (Point2 × Point2)} (h : l₁.Perm l₂) (O : Point2) :
    sumHalfTurns l₁ O = sumHalfTurns l₂ O := by
  induction h with
  | nil => rfl
  | cons e _ ih => rw [sumHalfTurns_cons, sumHalfTurns_cons, ih]
  | swap e f l =>
    rw [sumHalfTurns_cons, sumHalfTurns_cons, sumHalfTurns_cons, sumHalfTurns_cons]
    cases half_turn e.1 e.2 O <;> cases half_turn f.1 f.2 O <;> cases sumHalfTurns l O <;>
      simp [optAdd, add_left_comm]
  | trans _ _ ih1 ih2 => rw [ih1, ih2]

theorem sumHalfTurns_none_iff (l : List (Point2 × Point2)) (O : Point2) :
    sumHalfTurns l O = none ↔ ∃ e ∈ l, half_turn e.1 e.2 O = none := by
  induction l with
  | nil => simp [sumHalfTurns]
  | cons e t ih =>
    rw [sumHalfTurns_cons]
    constructor
    · intro h
      cases h1 : half_turn e.1 e.2 O with
      | none => exact ⟨e, List.mem_cons_self e t, h1⟩
      | some v =>
        cases h2 : sumHalfTurns t O with
        | none =>
          obtain ⟨f, hf, hfn⟩ := ih.mp h2
          exact ⟨f, List.mem_cons_of_mem e hf, hfn⟩
        | some w => rw [h1, h2] at h; simp [optAdd] at h
    · rintro ⟨f, hf, hfn⟩
      rcases List.mem_cons.mp hf with rfl | hf
      · rw [hfn]
        cases sumHalfTurns t O <;> rfl
      · rw [ih.mpr ⟨f, hf, hfn⟩]
        cases half_turn e.1 e.2 O <;> rfl

/-! ### Claim C4: the edge-contribution sum is even and halved exactly -/

theorem ccw_values (p q r : Point2) : ccw p q r = 0 ∨ ccw p q r = 1 ∨ ccw p q r = -1 := by
  unfold ccw
  split
  · exact Or.inl rfl
  · split
    · exact Or.inr (Or.inl rfl)
    · exact Or.inr (Or.inr rfl)

theorem half_turn_mod_two (p q O : Point2) (h : Int)
    (hh : half_turn p q O = some h) :
    h % 2 = (if lexLtB p O = lexLtB q O then 0 else 1) := by
  unfold half_turn at hh
  by_cases h0 : p = O ∨ q = O
  · rw [if_pos h0] at hh; exact absurd hh (by simp)
  · rw [if_neg h0] at hh
    by_cases h1 : lexLtB p O = lexLtB q O
    · rw [if_pos h1] at hh
      simp only [Option.some.injEq] at hh
      rw [if_pos h1, ← hh]
      rfl
    · rw [if_neg h1] at hh
      by_cases h2 : ccw p q O = 0
      · rw [if_pos h2] at hh; exact absurd hh (by simp)
      · rw [if_neg h2] at hh
        simp only [Option.some.injEq] at hh
        rw [if_neg h1, ← hh]
        rcases ccw_values p q O with hc | hc | hc
        · exact absurd hc h2
        · rw [hc]; rfl
        · rw [hc]; rfl

theorem path_parity (O : Point2) :
    ∀ (xs : List Point2) (x : Point2) (S : Int),
      sumHalfTurns (pathEdges (x :: xs)) O = some S →
      S % 2 = (if lexLtB x O = lexLtB (xs.getLastD x) O then 0 else 1)
  | [], x, S => by
    intro h
    simp only [pathEdges, List.zip_nil_right] at h
    simp only [sumHalfTurns, Option.some.injEq] at h
    simp [← h]
  | y :: ys, x, S => by
    intro h
    have hsplit : pathEdges (x :: y :: ys) = (x, y) :: pathEdges (y :: ys) := rfl
    rw [hsplit, sumHalfTurns_cons] at h
    cases h1 : half_turn x y O with
    | none => rw [h1] at h; cases hs : sumHalfTurns (pathEdges (y :: ys)) O <;>
        rw [hs] at h <;> exact absurd h (by simp [optAdd])
    | some ht =>
      cases hs : sumHalfTurns (pathEdges (y :: ys)) O with
      | none => rw [h1, hs] at h; exact absurd h (by simp [optAdd])
      | some S' =>
        rw [h1, hs] at h
        simp only [optAdd, Option.some.injEq] at h
        have hmod1 := half_turn_mod_two x y O ht h1
        have hmod2 := path_parity O ys y S' hs
        rw [List.getLastD_cons]
        cases hbx : lexLtB x O <;> cases hby : lexLtB y O <;>
          cases hbl : lexLtB (ys.getLastD y) O <;>
          rw [hbx, hby] at hmod1 <;> rw [hby, hbl] at hmod2 <;>
          simp at hmod1 hmod2 ⊢ <;> omega

theorem cyclic_parity (polygon : List Point2) (O : Point2) (S : Int)
    (h : sumHalfTurns (polygonEdges polygon) O = some S) : S % 2 = 0 := by
  cases polygon with
  | nil =>
    simp only [polygonEdges, List.zip_nil_left, sumHalfTurns, Option.some.injEq] at h
    omega
  | cons a t =>
    rw [polygonEdges_eq_path] at h
    have hpath : (a :: t) ++ (a :: t).take 1 = a :: (t ++ [a]) := rfl
    rw [hpath] at h
    have := path_parity O (t ++ [a]) a S h
    rw [List.getLastD_concat] at this
    simpa using this

/-- Claim C4: whenever no per-edge test errors (the edge-contribution sum over
all edges including the wrap-around closing edge evaluates to `S`), that sum is
even and the 2D `winding_number` returns exactly `S / 2`, with no rounding
loss. -/
theorem winding_number_even_sum (polygon : List Point2) (O : Point2) (S : Int)
    (h : sumHalfTurns (polygonEdges polygon) O = some S) :
    2 ∣ S ∧ winding_number polygon O = some (S.fdiv 2) ∧ 2 * S.fdiv 2 = S := by
  have hdvd : 2 ∣ S := Int.dvd_of_emod_eq_zero (cyclic_parity polygon O S h)
  refine ⟨hdvd, ?_, ?_⟩
  · rw [winding_number, h]
  · obtain ⟨k, hk⟩ := hdvd
    subst hk
    rw [Int.mul_fdiv_cancel_left k (by norm_num)]

/-- Witness for C4 at the unit square around the origin, where the edge sum
is 2 and the winding number 1. -/
theorem winding_number_even_sum_witness :
    2 ∣ (2 : Int)
    ∧ winding_number [⟨1, -1⟩, ⟨1, 1⟩, ⟨-1, 1⟩, ⟨-1, -1⟩] ⟨0, 0⟩ = some ((2 : Int).fdiv 2)
    ∧ 2 * (2 : Int).fdiv 2 = 2 :=
  winding_number_even_sum [⟨1, -1⟩, ⟨1, 1⟩, ⟨-1, 1⟩, ⟨-1, -1⟩] ⟨0, 0⟩ 2
    (by norm_num [polygonEdges, sumHalfTurns, half_turn, ccw, lexLtB, Point2.mk.injEq])

/-! ### Claim C6: traversing the polygon twice doubles the winding number -/

theorem polygonEdges_doubling (l : List Point2) :
    polygonEdges (l ++ l) = polygonEdges l ++ polygonEdges l := by
  cases l with
  | nil => rfl
  | cons a t =>
    obtain ⟨b, hb, hE⟩ := polygonEdges_closed a t
    have h1 : polygonEdges ((a :: t) ++ (a :: t)) =
        pathEdges ((a :: t) ++ ((a :: t) ++ [a])) := by
      rw [polygonEdges_eq_path]
      have : ((a :: t) ++ (a :: t)).take 1 = [a] := rfl
      rw [this, List.append_assoc]
    rw [h1, pathEdges_append]
    have hglue : glue (a :: t) ((a :: t) ++ [a]) = [(b, a)] := by
      simp [glue, hb]
    have hsnoc : pathEdges ((a :: t) ++ [a]) = pathEdges (a :: t) ++ [(b, a)] := by
      rw [pathEdges_snoc, hb]; rfl
    rw [hglue, hsnoc, hE]

/-- Claim C6: if `winding_number` returns `w` on a polygon at a query point,
it returns exactly `2 * w` on the concatenation of the polygon's vertex list
with itself at that point. -/
theorem winding_number_double (l : List Point2) (O : Point2) (w : Int)
    (h : winding_number l O = some w) :
    winding_number (l ++ l) O = some (2 * w) := by
  unfold winding_number at h
  cases hS : sumHalfTurns (polygonEdges l) O with
  | none => rw [hS] at h; exact absurd h (by simp)
  | some S =>
    rw [hS] at h
    simp only [Option.some.injEq] at h
    obtain ⟨hdvd, _, hexact⟩ := winding_number_even_sum l O S hS
    subst h
    rw [winding_number, polygonEdges_doubling, sumHalfTurns_append, hS]
    simp only [optAdd, Option.some.injEq]
    rw [show S + S = 2 * S by ring, Int.mul_fdiv_cancel_left S (by norm_num)]
    exact hexact.symm

/-- Witness for C6: the unit square around the origin has winding number 1,
and traversed twice, winding number 2. -/
theorem winding_number_double_witness :
    winding_number ([⟨1, -1⟩, ⟨1, 1⟩, ⟨-1, 1⟩, ⟨-1, -1⟩] ++
      [⟨1, -1⟩, ⟨1, 1⟩, ⟨-1, 1⟩, ⟨-1, -1⟩]) ⟨0, 0⟩ = some (2 * 1) :=
  winding_number_double [⟨1, -1⟩, ⟨1, 1⟩, ⟨-1, 1⟩, ⟨-1, -1⟩] ⟨0, 0⟩ 1
    (by norm_num [winding_number, polygonEdges, sumHalfTurns, half_turn, ccw, lexLtB,
      Point2.mk.injEq])

/-! ### 2D reversal: machinery for claim C5 -/

theorem ccw_swap (p q r : Point2) : ccw q p r = -(ccw p q r) := by
  have hd : (p.y - r.y) * (q.x - r.x) - (p.x - r.x) * (q.y - r.y) =
      -((q.y - r.y) * (p.x - r.x) - (q.x - r.x) * (p.y - r.y)) := by ring
  unfold ccw
  rw [hd]
  rcases lt_trichotomy ((q.y - r.y) * (p.x - r.x) - (q.x - r.x) * (p.y - r.y)) 0 with
    h | h | h
  · rw [if_neg (neg_ne_zero.mpr h.ne), if_pos (neg_pos.mpr h), if_neg h.ne,
      if_neg (not_lt.mpr h.le)]
    norm_num
  · rw [h, neg_zero]
    simp
  · rw [if_neg (neg_ne_zero.mpr h.ne'), if_neg (not_lt.mpr (neg_nonpos.mpr h.le)),
      if_neg h.ne', if_pos h]

theorem half_turn_swap (p q O : Point2) :
    half_turn q p O = (half_turn p q O).map (fun h => -h) := by
  unfold half_turn
  by_cases h0 : p = O ∨ q = O
  · rw [if_pos h0, if_pos (Or.symm h0)]; rfl
  · rw [if_neg h0, if_neg (fun h => h0 (Or.symm h))]
    by_cases h1 : lexLtB p O = lexLtB q O
    · rw [if_pos h1, if_pos h1.symm]; rfl
    · rw [if_neg h1, if_neg (fun h => h1 h.symm)]
      rw [ccw_swap]
      by_cases h2 : ccw p q O = 0
      · rw [if_pos h2, if_pos (by rw [h2]; rfl)]; rfl
      · rw [if_neg h2, if_neg (by simpa using h2)]; rfl

theorem sumHalfTurns_map_swap (l : List (Point2 × Point2)) (O : Point2) :
    sumHalfTurns (l.map Prod.swap) O = (sumHalfTurns l O).map (fun s => -s) := by
  induction l with
  | nil => simp [sumHalfTurns]
  | cons e t ih =>
    rw [List.map_cons, sumHalfTurns_cons, sumHalfTurns_cons, ih]
    have hsw : half_turn (Prod.swap e).1 (Prod.swap e).2 O =
        (half_turn e.1 e.2 O).map (fun h => -h) := half_turn_swap e.1 e.2 O
    rw [hsw]
    cases half_turn e.1 e.2 O <;> cases sumHalfTurns t O <;> simp [optAdd] <;> ring

theorem polygonEdges_reverse_perm (l : List Point2) :
    (polygonEdges l.reverse).Perm ((polygonEdges l).map Prod.swap) := by
  cases l with
  | nil => exact List.Perm.refl _
  | cons a t =>
    obtain ⟨b, hb, hE⟩ := polygonEdges_closed a t
    have hhead : (a :: t).reverse.head? = some b := by
      rw [List.head?_reverse]; exact hb
    have htake : (a :: t).reverse.take 1 = [b] := by
      rw [take_one_head, hhead]; rfl
    have hL : polygonEdges (a :: t).reverse =
        ((pathEdges (a :: t)).map Prod.swap).reverse ++ [(a, b)] := by
      rw [polygonEdges_eq_path, htake,
        show (a :: t).reverse ++ [b] = (b :: a :: t).reverse from (List.reverse_cons b (a :: t)).symm,
        pathEdges_reverse]
      show (((b, a) :: pathEdges (a :: t)).map Prod.swap).reverse = _
      simp
    rw [hL, hE]
    have hR : (pathEdges (a :: t) ++ [(b, a)]).map Prod.swap =
        (pathEdges (a :: t)).map Prod.swap ++ [(a, b)] := by simp
    rw [hR]
    exact (List.reverse_perm _).append_right _

theorem winding_number_reverse_2d (l : List Point2) (O : Point2) :
    winding_number l.reverse O = (winding_number l O).map (fun w => -w) := by
  have hperm := sumHalfTurns_perm (polygonEdges_reverse_perm l) O
  rw [winding_number, winding_number, hperm, sumHalfTurns_map_swap]
  cases hS : sumHalfTurns (polygonEdges l) O with
  | none => rfl
  | some S =>
    obtain ⟨k, hk⟩ := Int.dvd_of_emod_eq_zero (cyclic_parity l O S hS)
    subst hk
    show some ((-(2 * k)).fdiv 2) = some (-((2 * k).fdiv 2))
    rw [show -(2 * k) = 2 * (-k) by ring, Int.mul_fdiv_cancel_left (-k) (by norm_num),
      Int.mul_fdiv_cancel_left k (by norm_num)]

/-! ### 3D reversal: machinery for claim C5 -/

theorem orI_neg (a b : Int) : orI (-a) (-b) = -(orI a b) := by
  unfold orI
  by_cases h : a = 0 <;> simp [h]

theorem nzOpt_neg (r : Int) : nzOpt (-r) = (nzOpt r).map (fun s => -s) := by
  unfold nzOpt
  by_cases h : r = 0 <;> simp [h]

theorem edge_sign_swap (P Q O : Point3) :
    edge_sign Q P O = (edge_sign P Q O).map (fun s => -s) := by
  unfold edge_sign
  rw [show (Q.x - O.x) * (P.y - O.y) - (Q.y - O.y) * (P.x - O.x) =
      -((P.x - O.x) * (Q.y - O.y) - (P.y - O.y) * (Q.x - O.x)) from by ring,
    show (Q.x - O.x) * (P.z - O.z) - (Q.z - O.z) * (P.x - O.x) =
      -((P.x - O.x) * (Q.z - O.z) - (P.z - O.z) * (Q.x - O.x)) from by ring,
    show (Q.y - O.y) * (P.z - O.z) - (Q.z - O.z) * (P.y - O.y) =
      -((P.y - O.y) * (Q.z - O.z) - (P.z - O.z) * (Q.y - O.y)) from by ring,
    sign_neg_arg, sign_neg_arg, sign_neg_arg, orI_neg, orI_neg, nzOpt_neg]

theorem triangle_sign_rev (P Q R O : Point3) :
    triangle_sign R Q P O = (triangle_sign P Q R O).map (fun s => -s) := by
  unfold triangle_sign
  rw [show ((R.x - O.x) * (Q.y - O.y) - (R.y - O.y) * (Q.x - O.x)) * (P.z - O.z) +
      ((Q.x - O.x) * (P.y - O.y) - (Q.y - O.y) * (P.x - O.x)) * (R.z - O.z) +
      ((P.x - O.x) * (R.y - O.y) - (P.y - O.y) * (R.x - O.x)) * (Q.z - O.z) =
      -(((P.x - O.x) * (Q.y - O.y) - (P.y - O.y) * (Q.x - O.x)) * (R.z - O.z) +
        ((Q.x - O.x) * (R.y - O.y) - (Q.y - O.y) * (R.x - O.x)) * (P.z - O.z) +
        ((R.x - O.x) * (P.y - O.y) - (R.y - O.y) * (P.x - O.x)) * (Q.z - O.z)) from by ring,
    sign_neg_arg, nzOpt_neg]

theorem triangle_chain_rev (v1 v2 v3 O : Point3) :
    triangle_chain v3 v2 v1 O = (triangle_chain v1 v2 v3 O).map (fun s => -s) := by
  cases h1 : vertex_sign v1 O with
  | none => simp [triangle_chain, h1]
  | some s1 =>
    cases h2 : vertex_sign v2 O with
    | none => simp [triangle_chain, h1, h2]
    | some s2 =>
      cases h3 : vertex_sign v3 O with
      | none => simp [triangle_chain, h1, h2, h3]
      | some s3 =>
        have g1 : (if s3 ≠ s2 then edge_sign v3 v2 O else some 0) =
            (if s2 ≠ s3 then edge_sign v2 v3 O else some 0).map (fun s => -s) := by
          by_cases hss : s2 = s3
          · simp [hss]
          · rw [if_pos (Ne.symm hss), if_pos hss, edge_sign_swap]
        have g2 : (if s2 ≠ s1 then edge_sign v2 v1 O else some 0) =
            (if s1 ≠ s2 then edge_sign v1 v2 O else some 0).map (fun s => -s) := by
          by_cases hss : s1 = s2
          · simp [hss]
          · rw [if_pos (Ne.symm hss), if_pos hss, edge_sign_swap]
        have g3 : (if s1 ≠ s3 then edge_sign v1 v3 O else some 0) =
            (if s3 ≠ s1 then edge_sign v3 v1 O else some 0).map (fun s => -s) := by
          by_cases hss : s3 = s1
          · simp [hss]
          · rw [if_pos (Ne.symm hss), if_pos hss, edge_sign_swap]
        simp only [triangle_chain, h1, h2, h3]
        rw [g1, g2, g3]
        cases hE1 : (if s1 ≠ s2 then edge_sign v1 v2 O else some 0) with
        | none =>
          cases hE2 : (if s2 ≠ s3 then edge_sign v2 v3 O else some 0) <;>
            cases hE3 : (if s3 ≠ s1 then edge_sign v3 v1 O else some 0) <;> rfl
        | some e12 =>
          cases hE2 : (if s2 ≠ s3 then edge_sign v2 v3 O else some 0) with
          | none =>
            cases hE3 : (if s3 ≠ s1 then edge_sign v3 v1 O else some 0) <;> rfl
          | some e23 =>
            cases hE3 : (if s3 ≠ s1 then edge_sign v3 v1 O else some 0) with
            | none => rfl
            | some e31 =>
              show (if -e23 + -e12 + -e31 = 0 then some 0 else triangle_sign v3 v2 v1 O) =
                Option.map (fun s => -s)
                  (if e12 + e23 + e31 = 0 then some 0 else triangle_sign v1 v2 v3 O)
              by_cases hz : e12 + e23 + e31 = 0
              · rw [if_pos (by omega), if_pos hz]
                rfl
              · rw [if_neg (by omega), if_neg hz, triangle_sign_rev]

theorem lookupTris_revMap (vp : List Point3) (ts : List (Nat × Nat × Nat)) :
    lookupTris vp (ts.map (fun t => (t.2.2, t.2.1, t.1))) =
      (lookupTris vp ts).map (List.map (fun q : Point3 × Point3 × Point3 =>
        (q.2.2, q.2.1, q.1))) := by
  induction ts with
  | nil => rfl
  | cons t ts ih =>
    rw [List.map_cons, lookupTris, lookupTris, ih]
    cases ha : vp[t.1]? <;> cases hb : vp[t.2.1]? <;> cases hc : vp[t.2.2]? <;>
      cases hrest : lookupTris vp ts <;> rfl

theorem sumChains_cons (t : Point3 × Point3 × Point3)
    (l : List (Point3 × Point3 × Point3)) (O : Point3) :
    sumChains (t :: l) O = optAdd (triangle_chain t.1 t.2.1 t.2.2 O) (sumChains l O) := by
  cases h1 : triangle_chain t.1 t.2.1 t.2.2 O <;> cases h2 : sumChains l O <;>
    simp [sumChains, optAdd, h1, h2]

theorem sumChains_revMap (l : List (Point3 × Point3 × Point3)) (O : Point3) :
    sumChains (l.map (fun q : Point3 × Point3 × Point3 => (q.2.2, q.2.1, q.1))) O =
      (sumChains l O).map (fun s => -s) := by
  induction l with
  | nil => simp [sumChains]
  | cons t l ih =>
    rw [List.map_cons, sumChains_cons, sumChains_cons, ih]
    have hrev : triangle_chain t.2.2 t.2.1 t.1 O =
        (triangle_chain t.1 t.2.1 t.2.2 O).map (fun s => -s) :=
      triangle_chain_rev t.1 t.2.1 t.2.2 O
    show optAdd (triangle_chain t.2.2 t.2.1 t.1 O) ((sumChains l O).map (fun s => -s)) =
      (optAdd (triangle_chain t.1 t.2.1 t.2.2 O) (sumChains l O)).map (fun s => -s)
    rw [hrev]
    cases triangle_chain t.1 t.2.1 t.2.2 O <;> cases sumChains l O <;>
      simp [optAdd] <;> ring

theorem meshChainSum_reverse (m : Polyhedron) (O : Point3) :
    meshChainSum (reverseMesh m) O = (meshChainSum m O).map (fun s => -s) := by
  unfold meshChainSum triangle_positions reverseMesh
  rw [lookupTris_revMap]
  cases h : lookupTris m.vertex_positions m.triangles with
  | none => rfl
  | some tris =>
    show sumChains (tris.map _) O = _
    rw [sumChains_revMap]

/-! ### Claim C5: reversal negates the winding number -/

/-- A mesh consisting of a single triangle: not a closed surface, so its
chain sum (here 1) is odd and floor division by 2 loses information. -/
def singleTriangle : Polyhedron where
  vertex_positions := [⟨-1, -1, 1⟩, ⟨3, -1, 1⟩, ⟨-1, 3, 1⟩]
  triangles := [(0, 1, 2)]

/-- Counterexample to C5 as stated: for the (non-closed) one-triangle mesh,
`winding_number` at the origin returns 0, but the mesh with the triangle's
vertex order reversed returns -1, not -0. -/
theorem reverse_mesh_counterexample :
    Polyhedron.winding_number singleTriangle ⟨0, 0, 0⟩ = some 0
    ∧ Polyhedron.winding_number (reverseMesh singleTriangle) ⟨0, 0, 0⟩ = some (-1)
    ∧ Polyhedron.winding_number (reverseMesh singleTriangle) ⟨0, 0, 0⟩ ≠
        (Polyhedron.winding_number singleTriangle ⟨0, 0, 0⟩).map (fun w => -w) := by
  refine ⟨?_, ?_, ?_⟩ <;>
    (norm_num [Polyhedron.winding_number, meshChainSum, triangle_positions, singleTriangle,
      reverseMesh, lookupTris, sumChains, triangle_chain, vertex_sign, edge_sign,
      triangle_sign, sign, orI, nzOpt]
     <;> decide)

/-- Claim C5 (amended): reversing a polygon's traversal direction negates the
2D winding number at every point (and raises exactly when the original
raises); and for every mesh whose per-triangle chain sum is even — as the
spec guarantees for well-formed closed meshes — reversing every triangle's
vertex order negates `Polyhedron.winding_number` at every point at which it
succeeds.  (Unamended, the 3D half fails on non-closed meshes with an odd
chain sum: see the counterexample.) -/
theorem winding_number_reversal (polygon : List Point2) (O2 : Point2)
    (m : Polyhedron) (O3 : Point3) (S : Int)
    (hS : meshChainSum m O3 = some S) (heven : 2 ∣ S) :
    winding_number polygon.reverse O2 = (winding_number polygon O2).map (fun w => -w)
    ∧ Polyhedron.winding_number m O3 = some (S.fdiv 2)
    ∧ Polyhedron.winding_number (reverseMesh m) O3 = some (-(S.fdiv 2)) := by
  refine ⟨winding_number_reverse_2d polygon O2, ?_, ?_⟩
  · rw [Polyhedron.winding_number, hS]
  · rw [Polyhedron.winding_number, meshChainSum_reverse, hS]
    show some ((-S).fdiv 2) = some (-(S.fdiv 2))
    obtain ⟨k, hk⟩ := heven
    subst hk
    rw [show -(2 * k) = 2 * (-k) by ring, Int.mul_fdiv_cancel_left (-k) (by norm_num),
      Int.mul_fdiv_cancel_left k (by norm_num)]

/-- Witness for C5 (amended) at the unit square around the origin and the
tetrahedron at (3/10, 3/10, 3/10), whose chain sum is 2. -/
theorem winding_number_reversal_witness :
    winding_number ([⟨1, -1⟩, ⟨1, 1⟩, ⟨-1, 1⟩, ⟨-1, -1⟩] : List Point2).reverse ⟨0, 0⟩ =
      (winding_number [⟨1, -1⟩, ⟨1, 1⟩, ⟨-1, 1⟩, ⟨-1, -1⟩] ⟨0, 0⟩).map (fun w => -w)
    ∧ Polyhedron.winding_number tetrahedron ⟨3/10, 3/10, 3/10⟩ = some ((2 : Int).fdiv 2)
    ∧ Polyhedron.winding_number (reverseMesh tetrahedron) ⟨3/10, 3/10, 3/10⟩ =
        some (-((2 : Int).fdiv 2)) :=
  winding_number_reversal [⟨1, -1⟩, ⟨1, 1⟩, ⟨-1, 1⟩, ⟨-1, -1⟩] ⟨0, 0⟩
    tetrahedron ⟨3/10, 3/10, 3/10⟩ 2
    (by norm_num [meshChainSum, triangle_positions, tetrahedron, lookupTris, sumChains,
      triangle_chain, vertex_sign, edge_sign, triangle_sign, sign, orI, nzOpt])
    (by norm_num)

/-! ### Claim C1: the 2D engine errors exactly on the polygon's path -/

/-- Membership of `o` in the closed segment from `p` to `q`. -/
def onSegment (p q o : Point2) : Prop :=
  ∃ t : ℚ, 0 ≤ t ∧ t ≤ 1 ∧ o.x = p.x + t * (q.x - p.x) ∧ o.y = p.y + t * (q.y - p.y)

/-- Membership in the half-plane L of the module docstring:
`L = \x7b(x, y) | x < 0 or x == 0 and y < 0\x7d` translated to `origin`. -/
def inL (p o : Point2) : Prop :=
  p.x < o.x ∨ (p.x = o.x ∧ p.y < o.y)

theorem lexLtB_true_iff (p q : Point2) : lexLtB p q = true ↔ inL p q := by
  unfold lexLtB inL
  split_ifs with h1 h2
  · simp [h1]
  · simp [h2]
  · simp [h1, h2]

theorem point2_ext (p q : Point2) (hx : p.x = q.x) (hy : p.y = q.y) : p = q := by
  cases p; cases q; simp_all

theorem inL_iff_diff (p o : Point2) :
    inL p o ↔ (p.x - o.x < 0 ∨ (p.x - o.x = 0 ∧ p.y - o.y < 0)) := by
  unfold inL
  rw [sub_neg, sub_eq_zero, sub_neg]

theorem flag_neg (ax ay : ℚ) (ha : ¬(ax = 0 ∧ ay = 0)) :
    (-ax < 0 ∨ (-ax = 0 ∧ -ay < 0)) ↔ ¬(ax < 0 ∨ (ax = 0 ∧ ay < 0)) := by
  constructor
  · rintro (h | ⟨h0, h⟩) (hc | ⟨hc0, hc⟩) <;> linarith
  · intro hc
    rcases lt_trichotomy ax 0 with h1 | h1 | h1
    · exact absurd (Or.inl h1) hc
    · have hay : ay ≠ 0 := fun h => ha ⟨h1, h⟩
      rcases lt_trichotomy ay 0 with h2 | h2 | h2
      · exact absurd (Or.inr ⟨h1, h2⟩) hc
      · exact absurd h2 hay
      · exact Or.inr ⟨by rw [h1, neg_zero], by linarith⟩
    · exact Or.inl (by linarith)

theorem flag_smul_pos (μ ax ay : ℚ) (hμ : 0 < μ) :
    (μ * ax < 0 ∨ (μ * ax = 0 ∧ μ * ay < 0)) ↔ (ax < 0 ∨ (ax = 0 ∧ ay < 0)) := by
  constructor
  · rintro (h | ⟨h0, h⟩)
    · left; by_contra hc; push_neg at hc; nlinarith
    · right
      refine ⟨(mul_eq_zero.mp h0).resolve_left hμ.ne', ?_⟩
      by_contra hc; push_neg at hc; nlinarith
  · rintro (h | ⟨h0, h⟩)
    · exact Or.inl (mul_neg_of_pos_of_neg hμ h)
    · exact Or.inr ⟨by rw [h0, mul_zero], mul_neg_of_pos_of_neg hμ h⟩

theorem flag_smul_neg (μ ax ay : ℚ) (hμ : μ < 0) (ha : ¬(ax = 0 ∧ ay = 0)) :
    (μ * ax < 0 ∨ (μ * ax = 0 ∧ μ * ay < 0)) ↔ ¬(ax < 0 ∨ (ax = 0 ∧ ay < 0)) := by
  have hb : ¬((-μ) * ax = 0 ∧ (-μ) * ay = 0) := by
    rintro ⟨hx, hy⟩
    have hμ' : (-μ) ≠ 0 := ne_of_gt (neg_pos.mpr hμ)
    exact ha ⟨(mul_eq_zero.mp hx).resolve_left hμ',
      (mul_eq_zero.mp hy).resolve_left hμ'⟩
  have h1 : μ * ax = -((-μ) * ax) := by ring
  have h2 : μ * ay = -((-μ) * ay) := by ring
  rw [h1, h2, flag_neg ((-μ) * ax) ((-μ) * ay) hb,
    flag_smul_pos (-μ) ax ay (neg_pos.mpr hμ)]

theorem lexLtB_eq_iff (p q o : Point2) :
    lexLtB p o = lexLtB q o ↔ (inL p o ↔ inL q o) := by
  rw [← lexLtB_true_iff p o, ← lexLtB_true_iff q o]
  cases lexLtB p o <;> cases lexLtB q o <;> simp

theorem ccw_eq_zero_iff (p q r : Point2) :
    ccw p q r = 0 ↔ (q.y - r.y) * (p.x - r.x) - (q.x - r.x) * (p.y - r.y) = 0 := by
  unfold ccw
  split_ifs with h1 h2
  · simp [h1]
  · simp [h1]
  · simp [h1]

theorem half_turn_none_imp (p q O : Point2) (h : half_turn p q O = none) :
    onSegment p q O := by
  unfold half_turn at h
  by_cases h0 : p = O ∨ q = O
  · rcases h0 with rfl | rfl
    · exact ⟨0, le_refl 0, zero_le_one, by ring, by ring⟩
    · exact ⟨1, zero_le_one, le_refl 1, by ring, by ring⟩
  · rw [if_neg h0] at h
    push_neg at h0
    obtain ⟨hp, hq⟩ := h0
    by_cases h1 : lexLtB p O = lexLtB q O
    · rw [if_pos h1] at h; exact absurd h (by simp)
    · rw [if_neg h1] at h
      by_cases h2 : ccw p q O = 0
      case neg => rw [if_neg h2] at h; exact absurd h (by simp)
      case pos =>
      have hdet : (q.y - O.y) * (p.x - O.x) - (q.x - O.x) * (p.y - O.y) = 0 :=
        (ccw_eq_zero_iff p q O).mp h2
      have hA : ¬(p.x - O.x = 0 ∧ p.y - O.y = 0) := by
        rintro ⟨hx, hy⟩
        exact hp (point2_ext p O (by linarith) (by linarith))
      have hB : ¬(q.x - O.x = 0 ∧ q.y - O.y = 0) := by
        rintro ⟨hx, hy⟩
        exact hq (point2_ext q O (by linarith) (by linarith))
      obtain ⟨μ, hbx, hby⟩ :
          ∃ μ : ℚ, q.x - O.x = μ * (p.x - O.x) ∧ q.y - O.y = μ * (p.y - O.y) := by
        by_cases hax : p.x - O.x = 0
        · have hay : p.y - O.y ≠ 0 := fun hy => hA ⟨hax, hy⟩
          have hbx0 : q.x - O.x = 0 := by
            have hz : (q.x - O.x) * (p.y - O.y) = 0 := by
              linear_combination (-1 : ℚ) * hdet + (q.y - O.y) * hax
            exact (mul_eq_zero.mp hz).resolve_right hay
          refine ⟨(q.y - O.y) / (p.y - O.y), by rw [hbx0, hax, mul_zero], ?_⟩
          field_simp
        · refine ⟨(q.x - O.x) / (p.x - O.x), by field_simp, ?_⟩
          rw [div_mul_eq_mul_div, eq_div_iff hax]
          linear_combination hdet
      have hμ0 : μ ≠ 0 := by
        rintro rfl
        rw [zero_mul] at hbx hby
        exact hB ⟨hbx, hby⟩
      have hμneg : μ < 0 := by
        rcases lt_trichotomy μ 0 with hh | hh | hh
        · exact hh
        · exact absurd hh hμ0
        · exfalso
          apply h1
          rw [lexLtB_eq_iff, inL_iff_diff, inL_iff_diff, hbx, hby,
            flag_smul_pos μ (p.x - O.x) (p.y - O.y) hh]
      have h1μ : 0 < 1 - μ := by linarith
      refine ⟨1 / (1 - μ), le_of_lt (div_pos one_pos h1μ), ?_, ?_, ?_⟩
      · rw [div_le_one h1μ]; linarith
      · have hqp : q.x - p.x = (μ - 1) * (p.x - O.x) := by linear_combination hbx
        rw [hqp]
        field_simp
        ring
      · have hqp : q.y - p.y = (μ - 1) * (p.y - O.y) := by linear_combination hby
        rw [hqp]
        field_simp
        ring

theorem onSegment_imp_none (p q O : Point2) (hseg : onSegment p q O) :
    half_turn p q O = none := by
  obtain ⟨t, ht0, ht1, hx, hy⟩ := hseg
  unfold half_turn
  by_cases h0 : p = O ∨ q = O
  · rw [if_pos h0]
  · rw [if_neg h0]
    push_neg at h0
    obtain ⟨hp, hq⟩ := h0
    have htne0 : t ≠ 0 := by
      rintro rfl
      rw [zero_mul, add_zero] at hx hy
      exact hp (point2_ext p O hx.symm hy.symm)
    have htne1 : t ≠ 1 := by
      rintro rfl
      exact hq (point2_ext q O (by linarith) (by linarith))
    have ht0' : 0 < t := lt_of_le_of_ne ht0 (Ne.symm htne0)
    have ht1' : t < 1 := lt_of_le_of_ne ht1 htne1
    have hbx : q.x - O.x = (-(1 - t) / t) * (p.x - O.x) := by
      rw [div_mul_eq_mul_div, eq_div_iff htne0]
      linear_combination (-1 : ℚ) * hx
    have hby : q.y - O.y = (-(1 - t) / t) * (p.y - O.y) := by
      rw [div_mul_eq_mul_div, eq_div_iff htne0]
      linear_combination (-1 : ℚ) * hy
    have hμ : -(1 - t) / t < 0 := div_neg_of_neg_of_pos (by linarith) ht0'
    have hA : ¬(p.x - O.x = 0 ∧ p.y - O.y = 0) := by
      rintro ⟨hx', hy'⟩
      exact hp (point2_ext p O (by linarith) (by linarith))
    have hflip := flag_smul_neg (-(1 - t) / t) (p.x - O.x) (p.y - O.y) hμ hA
    have hne : lexLtB p O ≠ lexLtB q O := by
      intro hc
      rw [lexLtB_eq_iff, inL_iff_diff, inL_iff_diff, hbx, hby, hflip] at hc
      exact iff_not_self hc
    rw [if_neg hne]
    have hdet : (q.y - O.y) * (p.x - O.x) - (q.x - O.x) * (p.y - O.y) = 0 := by
      linear_combination (p.x - O.x) * hby - (p.y - O.y) * hbx
    rw [if_pos (by rw [ccw_eq_zero_iff]; exact hdet)]

theorem mem_fst_polygonEdges (v : Point2) (l : List Point2) (hv : v ∈ l) :
    ∃ w, (v, w) ∈ polygonEdges l := by
  obtain ⟨i, hvi⟩ := List.mem_iff_get?.mp hv
  have hi : i < l.length := by
    by_contra hc
    rw [List.get?_eq_none.mpr (le_of_not_lt hc)] at hvi
    exact absurd hvi (by simp)
  obtain ⟨w, hw⟩ : ∃ w, (l.drop 1 ++ l.take 1).get? i = some w := by
    cases hr : (l.drop 1 ++ l.take 1).get? i with
    | none =>
      rw [List.get?_eq_none] at hr
      simp [List.length_drop, List.length_take] at hr
      omega
    | some w => exact ⟨w, rfl⟩
  exact ⟨w, List.mem_iff_get?.mpr
    ⟨i, (List.get?_zip_eq_some l (l.drop 1 ++ l.take 1) (v, w) i).mpr ⟨hvi, hw⟩⟩⟩

theorem winding_number_none_iff_sum (polygon : List Point2) (O : Point2) :
    winding_number polygon O = none ↔ sumHalfTurns (polygonEdges polygon) O = none := by
  unfold winding_number
  cases h : sumHalfTurns (polygonEdges polygon) O <;> simp

/-- Claim C1: the 2D `winding_number` raises an error if and only if the query
point lies on the polygon's path — it equals some vertex or lies on some
closed edge segment, including the wrap-around edge from the last vertex back
to the first; at every other point it returns an integer. -/
theorem winding_number_error_iff_on_path (polygon : List Point2) (O : Point2) :
    winding_number polygon O = none ↔
      ((∃ v ∈ polygon, v = O) ∨
        ∃ e ∈ polygonEdges polygon, onSegment e.1 e.2 O) := by
  rw [winding_number_none_iff_sum, sumHalfTurns_none_iff]
  constructor
  · rintro ⟨e, he, hnone⟩
    exact Or.inr ⟨e, he, half_turn_none_imp e.1 e.2 O hnone⟩
  · rintro (⟨v, hv, hvO⟩ | ⟨e, he, hseg⟩)
    · obtain ⟨w, hw⟩ := mem_fst_polygonEdges v polygon hv
      refine ⟨(v, w), hw, onSegment_imp_none v w O ⟨0, le_refl 0, zero_le_one, ?_, ?_⟩⟩
      · rw [← hvO]; ring
      · rw [← hvO]; ring
    · exact ⟨e, he, onSegment_imp_none e.1 e.2 O hseg⟩

/-! ### Claim C7: vector helpers for the boundary-detection proof -/

/-- Componentwise difference of 3D points, used as a vector. -/
def vsub (p q : Point3) : Point3 :=
  ⟨p.x - q.x, p.y - q.y, p.z - q.z⟩

/-- Cross product of two vectors. -/
def cross (a b : Point3) : Point3 :=
  ⟨a.y * b.z - a.z * b.y, a.z * b.x - a.x * b.z, a.x * b.y - a.y * b.x⟩

/-- Scalar multiple of a vector. -/
def smul3 (t : ℚ) (v : Point3) : Point3 :=
  ⟨t * v.x, t * v.y, t * v.z⟩

/-- Componentwise sum of two vectors. -/
def vadd (v w : Point3) : Point3 :=
  ⟨v.x + w.x, v.y + w.y, v.z + w.z⟩

/-- The sign cascade applied by `edge_sign`, as a function of the cross
product of the two difference vectors. -/
def cascadeSign (n : Point3) : Option Int :=
  nzOpt (orI (sign n.z) (orI (sign (-n.y)) (sign n.x)))

/-- The lexicographic sign cascade applied by `vertex_sign`, as a function of
the difference vector. -/
def lexsign3 (v : Point3) : Int :=
  orI (sign v.x) (orI (sign v.y) (sign v.z))

theorem point3_ext (p q : Point3) (hx : p.x = q.x) (hy : p.y = q.y) (hz : p.z = q.z) :
    p = q := by
  cases p; cases q; simp_all

theorem sign_of_neg {x : ℚ} (h : x < 0) : sign x = -1 := by
  unfold sign
  rw [if_neg (not_lt.mpr h.le), if_pos h]
  norm_num

theorem sign_of_pos {x : ℚ} (h : 0 < x) : sign x = 1 := by
  unfold sign
  rw [if_pos h, if_neg (not_lt.mpr h.le)]
  norm_num

theorem sign_zero_eval : sign 0 = 0 := rfl

theorem sign_one_iff_pos (x : ℚ) : sign x = 1 ↔ 0 < x := by
  rcases lt_trichotomy x 0 with h | h | h
  · rw [sign_of_neg h]
    constructor
    · intro hc; exact absurd hc (by norm_num)
    · intro hc; linarith
  · subst h; rw [sign_zero_eval]; norm_num
  · rw [sign_of_pos h]; simp [h]

theorem vertex_sign_eq (P O : Point3) : vertex_sign P O = nzOpt (lexsign3 (vsub P O)) := rfl

theorem edge_sign_eq_cascade (P Q O : Point3) :
    edge_sign P Q O = cascadeSign (cross (vsub P O) (vsub Q O)) := by
  show nzOpt (orI (sign ((P.x - O.x) * (Q.y - O.y) - (P.y - O.y) * (Q.x - O.x)))
      (orI (sign ((P.x - O.x) * (Q.z - O.z) - (P.z - O.z) * (Q.x - O.x)))
        (sign ((P.y - O.y) * (Q.z - O.z) - (P.z - O.z) * (Q.y - O.y))))) =
    nzOpt (orI (sign ((P.x - O.x) * (Q.y - O.y) - (P.y - O.y) * (Q.x - O.x)))
      (orI (sign (-((P.z - O.z) * (Q.x - O.x) - (P.x - O.x) * (Q.z - O.z))))
        (sign ((P.y - O.y) * (Q.z - O.z) - (P.z - O.z) * (Q.y - O.y)))))
  rw [show -((P.z - O.z) * (Q.x - O.x) - (P.x - O.x) * (Q.z - O.z)) =
    (P.x - O.x) * (Q.z - O.z) - (P.z - O.z) * (Q.x - O.x) from by ring]

theorem cascadeSign_zero3 : cascadeSign ⟨0, 0, 0⟩ = none := rfl

theorem cascadeSign_smul (t : ℚ) (ht : 0 < t) (n : Point3) :
    cascadeSign (smul3 t n) = cascadeSign n := by
  show nzOpt (orI (sign (t * n.z)) (orI (sign (-(t * n.y))) (sign (t * n.x)))) = _
  rw [show -(t * n.y) = t * (-n.y) from by ring, sign_pos_mul t n.z ht,
    sign_pos_mul t (-n.y) ht, sign_pos_mul t n.x ht]
  rfl

theorem cascadeSign_some (n : Point3) (hn : ¬(n.x = 0 ∧ n.y = 0 ∧ n.z = 0)) :
    ∃ s, cascadeSign n = some s ∧ s ≠ 0 := by
  unfold cascadeSign
  set r := orI (sign n.z) (orI (sign (-n.y)) (sign n.x)) with hr
  have hrne : r ≠ 0 := by
    intro h0
    rw [hr, orI_zero_iff, orI_zero_iff, sign_zero_iff, sign_zero_iff, sign_zero_iff,
      neg_eq_zero] at h0
    exact hn ⟨h0.2.2, h0.2.1, h0.1⟩
  exact ⟨r, by rw [nzOpt, if_neg hrne], hrne⟩

theorem lexsign3_smul (t : ℚ) (v : Point3) (ht : 0 < t) :
    lexsign3 (smul3 t v) = lexsign3 v := by
  show orI (sign (t * v.x)) (orI (sign (t * v.y)) (sign (t * v.z))) = _
  rw [sign_pos_mul t v.x ht, sign_pos_mul t v.y ht, sign_pos_mul t v.z ht]
  rfl

theorem lexsign3_negate (v : Point3) : lexsign3 (smul3 (-1) v) = -(lexsign3 v) := by
  show orI (sign ((-1) * v.x)) (orI (sign ((-1) * v.y)) (sign ((-1) * v.z))) = _
  rw [show (-1 : ℚ) * v.x = -v.x from by ring, show (-1 : ℚ) * v.y = -v.y from by ring,
    show (-1 : ℚ) * v.z = -v.z from by ring, sign_neg_arg, sign_neg_arg, sign_neg_arg,
    orI_neg, orI_neg]
  rfl

theorem lexsign3_smul_neg (t : ℚ) (v : Point3) (ht : t < 0) :
    lexsign3 (smul3 t v) = -(lexsign3 v) := by
  have h : smul3 t v = smul3 (-1) (smul3 (-t) v) := by
    unfold smul3
    refine point3_ext _ _ ?_ ?_ ?_ <;> (show _ = _; ring)
  rw [h, lexsign3_negate, lexsign3_smul (-t) v (by linarith)]

theorem lexsign3_zero_iff (v : Point3) :
    lexsign3 v = 0 ↔ (v.x = 0 ∧ v.y = 0 ∧ v.z = 0) := by
  unfold lexsign3
  rw [orI_zero_iff, orI_zero_iff, sign_zero_iff, sign_zero_iff, sign_zero_iff]

theorem lexsign3_one_iff (v : Point3) :
    lexsign3 v = 1 ↔ (0 < v.x ∨ (v.x = 0 ∧ (0 < v.y ∨ (v.y = 0 ∧ 0 < v.z)))) := by
  unfold lexsign3 orI
  by_cases hx : sign v.x = 0
  · rw [if_pos hx]
    rw [sign_zero_iff] at hx
    by_cases hy : sign v.y = 0
    · rw [if_pos hy]
      rw [sign_zero_iff] at hy
      rw [sign_one_iff_pos]
      simp [hx, hy]
    · rw [if_neg hy, sign_one_iff_pos]
      have hyne : v.y ≠ 0 := fun h => hy ((sign_zero_iff v.y).mpr h)
      simp [hx, hyne]
  · rw [if_neg hx, sign_one_iff_pos]
    have hxne : v.x ≠ 0 := fun h => hx ((sign_zero_iff v.x).mpr h)
    simp [hxne]

theorem lexsign3_add_one (v w : Point3) (hv : lexsign3 v = 1) (hw : lexsign3 w = 1) :
    lexsign3 (vadd v w) = 1 := by
  rw [lexsign3_one_iff] at hv hw
  rw [lexsign3_one_iff]
  show 0 < v.x + w.x ∨ (v.x + w.x = 0 ∧ (0 < v.y + w.y ∨ (v.y + w.y = 0 ∧ 0 < v.z + w.z)))
  rcases hv with h | ⟨h0, hv'⟩
  · rcases hw with g | ⟨g0, _⟩
    · exact Or.inl (add_pos h g)
    · exact Or.inl (by linarith)
  · rcases hw with g | ⟨g0, hw'⟩
    · exact Or.inl (by linarith)
    · refine Or.inr ⟨by rw [h0, g0]; ring, ?_⟩
      rcases hv' with h | ⟨h0y, hv''⟩
      · rcases hw' with g | ⟨g0y, _⟩
        · exact Or.inl (add_pos h g)
        · exact Or.inl (by linarith)
      · rcases hw' with g | ⟨g0y, hw''⟩
        · exact Or.inl (by linarith)
        · exact Or.inr ⟨by rw [h0y, g0y]; ring, add_pos hv'' hw''⟩

theorem lexsign3_zero3 : lexsign3 ⟨0, 0, 0⟩ = 0 := rfl

/-- No combination of three lexicographically positive vectors with positive
coefficients can vanish. -/
theorem no_pos_combo (a b c : Point3) (al be ga : ℚ)
    (hal : 0 < al) (hbe : 0 < be) (hga : 0 < ga)
    (hx : al * a.x + be * b.x + ga * c.x = 0)
    (hy : al * a.y + be * b.y + ga * c.y = 0)
    (hz : al * a.z + be * b.z + ga * c.z = 0)
    (ha : lexsign3 a = 1) (hb : lexsign3 b = 1) (hc : lexsign3 c = 1) : False := by
  have h1 : lexsign3 (vadd (vadd (smul3 al a) (smul3 be b)) (smul3 ga c)) = 1 :=
    lexsign3_add_one _ _
      (lexsign3_add_one _ _ (by rw [lexsign3_smul al a hal]; exact ha)
        (by rw [lexsign3_smul be b hbe]; exact hb))
      (by rw [lexsign3_smul ga c hga]; exact hc)
  have h0 : vadd (vadd (smul3 al a) (smul3 be b)) (smul3 ga c) = ⟨0, 0, 0⟩ := by
    refine point3_ext _ _ ?_ ?_ ?_
    · show al * a.x + be * b.x + ga * c.x = 0; exact hx
    · show al * a.y + be * b.y + ga * c.y = 0; exact hy
    · show al * a.z + be * b.z + ga * c.z = 0; exact hz
  rw [h0, lexsign3_zero3] at h1
  exact absurd h1 (by norm_num)

/-! ### Claim C7: triangle_chain errors on every point of a closed triangle -/

theorem smul3_zero (v : Point3) : smul3 0 v = ⟨0, 0, 0⟩ := by
  unfold smul3
  simp

theorem triangle_chain_none_of_vs (v1 v2 v3 O : Point3)
    (h : vertex_sign v1 O = none ∨ vertex_sign v2 O = none ∨ vertex_sign v3 O = none) :
    triangle_chain v1 v2 v3 O = none := by
  cases h1 : vertex_sign v1 O <;> cases h2 : vertex_sign v2 O <;>
    cases h3 : vertex_sign v3 O <;> simp_all [triangle_chain]

theorem triangle_chain_none_of_edge1 (v1 v2 v3 O : Point3) (s1 s2 s3 : Int)
    (h1 : vertex_sign v1 O = some s1) (h2 : vertex_sign v2 O = some s2)
    (h3 : vertex_sign v3 O = some s3) (hne : s1 ≠ s2)
    (hedge : edge_sign v1 v2 O = none) : triangle_chain v1 v2 v3 O = none := by
  have hfb1 : (if s1 ≠ s2 then edge_sign v1 v2 O else some 0) = none := by
    rw [if_pos hne, hedge]
  simp [triangle_chain, h1, h2, h3, hfb1]

theorem triangle_chain_none_of_edge2 (v1 v2 v3 O : Point3) (s1 s2 s3 : Int)
    (h1 : vertex_sign v1 O = some s1) (h2 : vertex_sign v2 O = some s2)
    (h3 : vertex_sign v3 O = some s3) (hne : s2 ≠ s3)
    (hedge : edge_sign v2 v3 O = none) : triangle_chain v1 v2 v3 O = none := by
  have hfb2 : (if s2 ≠ s3 then edge_sign v2 v3 O else some 0) = none := by
    rw [if_pos hne, hedge]
  cases hfb1 : (if s1 ≠ s2 then edge_sign v1 v2 O else some 0) <;>
    simp [triangle_chain, h1, h2, h3, hfb1, hfb2]

theorem triangle_chain_none_of_edge3 (v1 v2 v3 O : Point3) (s1 s2 s3 : Int)
    (h1 : vertex_sign v1 O = some s1) (h2 : vertex_sign v2 O = some s2)
    (h3 : vertex_sign v3 O = some s3) (hne : s3 ≠ s1)
    (hedge : edge_sign v3 v1 O = none) : triangle_chain v1 v2 v3 O = none := by
  have hfb3 : (if s3 ≠ s1 then edge_sign v3 v1 O else some 0) = none := by
    rw [if_pos hne, hedge]
  cases hfb1 : (if s1 ≠ s2 then edge_sign v1 v2 O else some 0) <;>
    cases hfb2 : (if s2 ≠ s3 then edge_sign v2 v3 O else some 0) <;>
    simp [triangle_chain, h1, h2, h3, hfb1, hfb2, hfb3]

theorem triangle_chain_none_interior (v1 v2 v3 O : Point3) (s1 s2 s3 s : Int)
    (h1 : vertex_sign v1 O = some s1) (h2 : vertex_sign v2 O = some s2)
    (h3 : vertex_sign v3 O = some s3)
    (hnotall : ¬(s1 = s2 ∧ s2 = s3)) (hs : s ≠ 0)
    (he12 : edge_sign v1 v2 O = some s) (he23 : edge_sign v2 v3 O = some s)
    (he31 : edge_sign v3 v1 O = some s)
    (htsign : triangle_sign v1 v2 v3 O = none) :
    triangle_chain v1 v2 v3 O = none := by
  have hfb1 : (if s1 ≠ s2 then edge_sign v1 v2 O else some 0) =
      some (if s1 ≠ s2 then s else 0) := by
    by_cases hg : s1 ≠ s2
    · rw [if_pos hg, if_pos hg]; exact he12
    · rw [if_neg hg, if_neg hg]
  have hfb2 : (if s2 ≠ s3 then edge_sign v2 v3 O else some 0) =
      some (if s2 ≠ s3 then s else 0) := by
    by_cases hg : s2 ≠ s3
    · rw [if_pos hg, if_pos hg]; exact he23
    · rw [if_neg hg, if_neg hg]
  have hfb3 : (if s3 ≠ s1 then edge_sign v3 v1 O else some 0) =
      some (if s3 ≠ s1 then s else 0) := by
    by_cases hg : s3 ≠ s1
    · rw [if_pos hg, if_pos hg]; exact he31
    · rw [if_neg hg, if_neg hg]
  have hsumne : ¬((if s1 ≠ s2 then s else 0) + (if s2 ≠ s3 then s else 0) +
      (if s3 ≠ s1 then s else 0) = 0) := by
    split_ifs with hg1 hg2 hg3 <;>
      first
        | (exact fun _ => hnotall ⟨not_not.mp hg1, not_not.mp hg2⟩)
        | omega
  simp only [triangle_chain, h1, h2, h3, hfb1, hfb2, hfb3]
  rw [if_neg hsumne, htsign]

/-- Membership of `O` in the closed triangle with vertices `P`, `Q`, `R`. -/
def onTriangle (P Q R O : Point3) : Prop :=
  ∃ al be ga : ℚ, 0 ≤ al ∧ 0 ≤ be ∧ 0 ≤ ga ∧ al + be + ga = 1 ∧
    O.x = al * P.x + be * Q.x + ga * R.x ∧
    O.y = al * P.y + be * Q.y + ga * R.y ∧
    O.z = al * P.z + be * Q.z + ga * R.z

/-- Affine independence of the triangle's vertices. -/
def nondegenerate (P Q R : Point3) : Prop :=
  ¬((cross (vsub Q P) (vsub R P)).x = 0 ∧ (cross (vsub Q P) (vsub R P)).y = 0 ∧
    (cross (vsub Q P) (vsub R P)).z = 0)

theorem triangle_chain_none_of_onTriangle (P Q R O : Point3)
    (hnd : nondegenerate P Q R) (hO : onTriangle P Q R O) :
    triangle_chain P Q R O = none := by
  obtain ⟨al, be, ga, hal, hbe, hga, hsum, hOx, hOy, hOz⟩ := hO
  have hgaeq : ga = 1 - al - be := by linarith
  subst hgaeq
  have k1 : cross (vsub P O) (vsub Q O) =
      smul3 (1 - al - be) (cross (vsub Q P) (vsub R P)) := by
    refine point3_ext _ _ ?_ ?_ ?_
    · show (P.y - O.y) * (Q.z - O.z) - (P.z - O.z) * (Q.y - O.y) =
        (1 - al - be) * ((Q.y - P.y) * (R.z - P.z) - (Q.z - P.z) * (R.y - P.y))
      rw [hOy, hOz]; ring
    · show (P.z - O.z) * (Q.x - O.x) - (P.x - O.x) * (Q.z - O.z) =
        (1 - al - be) * ((Q.z - P.z) * (R.x - P.x) - (Q.x - P.x) * (R.z - P.z))
      rw [hOx, hOz]; ring
    · show (P.x - O.x) * (Q.y - O.y) - (P.y - O.y) * (Q.x - O.x) =
        (1 - al - be) * ((Q.x - P.x) * (R.y - P.y) - (Q.y - P.y) * (R.x - P.x))
      rw [hOx, hOy]; ring
  have k2 : cross (vsub Q O) (vsub R O) = smul3 al (cross (vsub Q P) (vsub R P)) := by
    refine point3_ext _ _ ?_ ?_ ?_
    · show (Q.y - O.y) * (R.z - O.z) - (Q.z - O.z) * (R.y - O.y) =
        al * ((Q.y - P.y) * (R.z - P.z) - (Q.z - P.z) * (R.y - P.y))
      rw [hOy, hOz]; ring
    · show (Q.z - O.z) * (R.x - O.x) - (Q.x - O.x) * (R.z - O.z) =
        al * ((Q.z - P.z) * (R.x - P.x) - (Q.x - P.x) * (R.z - P.z))
      rw [hOx, hOz]; ring
    · show (Q.x - O.x) * (R.y - O.y) - (Q.y - O.y) * (R.x - O.x) =
        al * ((Q.x - P.x) * (R.y - P.y) - (Q.y - P.y) * (R.x - P.x))
      rw [hOx, hOy]; ring
  have k3 : cross (vsub R O) (vsub P O) = smul3 be (cross (vsub Q P) (vsub R P)) := by
    refine point3_ext _ _ ?_ ?_ ?_
    · show (R.y - O.y) * (P.z - O.z) - (R.z - O.z) * (P.y - O.y) =
        be * ((Q.y - P.y) * (R.z - P.z) - (Q.z - P.z) * (R.y - P.y))
      rw [hOy, hOz]; ring
    · show (R.z - O.z) * (P.x - O.x) - (R.x - O.x) * (P.z - O.z) =
        be * ((Q.z - P.z) * (R.x - P.x) - (Q.x - P.x) * (R.z - P.z))
      rw [hOx, hOz]; ring
    · show (R.x - O.x) * (P.y - O.y) - (R.y - O.y) * (P.x - O.x) =
        be * ((Q.x - P.x) * (R.y - P.y) - (Q.y - P.y) * (R.x - P.x))
      rw [hOx, hOy]; ring
  rcases eq_or_lt_of_le hal with hal0 | hal0 <;>
    rcases eq_or_lt_of_le hbe with hbe0 | hbe0 <;>
    rcases eq_or_lt_of_le hga with hga0 | hga0
  -- al = 0, be = 0, 1 - al - be = 0: impossible
  · exfalso; rw [← hal0, ← hbe0] at hga0; norm_num at hga0
  -- al = 0, be = 0, ga > 0: O = R
  · refine triangle_chain_none_of_vs P Q R O (Or.inr (Or.inr ?_))
    rw [vertex_sign_eq, nzOpt_eq_none_iff, lexsign3_zero_iff]
    refine ⟨?_, ?_, ?_⟩
    · show R.x - O.x = 0; rw [hOx, ← hal0, ← hbe0]; ring
    · show R.y - O.y = 0; rw [hOy, ← hal0, ← hbe0]; ring
    · show R.z - O.z = 0; rw [hOz, ← hal0, ← hbe0]; ring
  -- al = 0, be > 0, ga = 0: O = Q
  · refine triangle_chain_none_of_vs P Q R O (Or.inr (Or.inl ?_))
    have hbe1 : be = 1 := by linarith
    rw [vertex_sign_eq, nzOpt_eq_none_iff, lexsign3_zero_iff]
    refine ⟨?_, ?_, ?_⟩
    · show Q.x - O.x = 0; rw [hOx, ← hal0, hbe1]; ring
    · show Q.y - O.y = 0; rw [hOy, ← hal0, hbe1]; ring
    · show Q.z - O.z = 0; rw [hOz, ← hal0, hbe1]; ring
  -- al = 0, be > 0, ga > 0: O strictly inside edge QR
  · rw [← hal0] at k2 hOx hOy hOz hga0
    have hend : ¬((vsub Q R).x = 0 ∧ (vsub Q R).y = 0 ∧ (vsub Q R).z = 0) := by
      rintro ⟨h1, h2, h3⟩
      have e1 : Q.x - R.x = 0 := h1
      have e2 : Q.y - R.y = 0 := h2
      have e3 : Q.z - R.z = 0 := h3
      refine hnd ⟨?_, ?_, ?_⟩
      · show (Q.y - P.y) * (R.z - P.z) - (Q.z - P.z) * (R.y - P.y) = 0
        rw [show R.z - P.z = Q.z - P.z from by linarith,
          show R.y - P.y = Q.y - P.y from by linarith]
        ring
      · show (Q.z - P.z) * (R.x - P.x) - (Q.x - P.x) * (R.z - P.z) = 0
        rw [show R.x - P.x = Q.x - P.x from by linarith,
          show R.z - P.z = Q.z - P.z from by linarith]
        ring
      · show (Q.x - P.x) * (R.y - P.y) - (Q.y - P.y) * (R.x - P.x) = 0
        rw [show R.y - P.y = Q.y - P.y from by linarith,
          show R.x - P.x = Q.x - P.x from by linarith]
        ring
    have hsd : lexsign3 (vsub Q R) ≠ 0 := fun h => hend ((lexsign3_zero_iff _).mp h)
    have hb_eq : vsub Q O = smul3 (1 - 0 - be) (vsub Q R) := by
      refine point3_ext _ _ ?_ ?_ ?_
      · show Q.x - O.x = (1 - 0 - be) * (Q.x - R.x); rw [hOx]; ring
      · show Q.y - O.y = (1 - 0 - be) * (Q.y - R.y); rw [hOy]; ring
      · show Q.z - O.z = (1 - 0 - be) * (Q.z - R.z); rw [hOz]; ring
    have hc_eq : vsub R O = smul3 (-be) (vsub Q R) := by
      refine point3_ext _ _ ?_ ?_ ?_
      · show R.x - O.x = (-be) * (Q.x - R.x); rw [hOx]; ring
      · show R.y - O.y = (-be) * (Q.y - R.y); rw [hOy]; ring
      · show R.z - O.z = (-be) * (Q.z - R.z); rw [hOz]; ring
    have hvs2 : vertex_sign Q O = some (lexsign3 (vsub Q R)) := by
      rw [vertex_sign_eq, hb_eq, lexsign3_smul (1 - 0 - be) (vsub Q R) hga0, nzOpt,
        if_neg hsd]
    have hvs3 : vertex_sign R O = some (-(lexsign3 (vsub Q R))) := by
      rw [vertex_sign_eq, hc_eq, lexsign3_smul_neg (-be) (vsub Q R) (by linarith), nzOpt,
        if_neg (neg_ne_zero.mpr hsd)]
    cases hvs1 : vertex_sign P O with
    | none => exact triangle_chain_none_of_vs P Q R O (Or.inl hvs1)
    | some s1 =>
      refine triangle_chain_none_of_edge2 P Q R O s1 (lexsign3 (vsub Q R))
        (-(lexsign3 (vsub Q R))) hvs1 hvs2 hvs3 (by omega) ?_
      rw [edge_sign_eq_cascade, k2, smul3_zero]
      exact cascadeSign_zero3
  -- al > 0, be = 0, ga = 0: O = P
  · refine triangle_chain_none_of_vs P Q R O (Or.inl ?_)
    have hal1 : al = 1 := by linarith
    rw [vertex_sign_eq, nzOpt_eq_none_iff, lexsign3_zero_iff]
    refine ⟨?_, ?_, ?_⟩
    · show P.x - O.x = 0; rw [hOx, ← hbe0, hal1]; ring
    · show P.y - O.y = 0; rw [hOy, ← hbe0, hal1]; ring
    · show P.z - O.z = 0; rw [hOz, ← hbe0, hal1]; ring
  -- al > 0, be = 0, ga > 0: O strictly inside edge RP
  · rw [← hbe0] at k3 hOx hOy hOz hga0
    have hend : ¬((vsub R P).x = 0 ∧ (vsub R P).y = 0 ∧ (vsub R P).z = 0) := by
      rintro ⟨h1, h2, h3⟩
      have e1 : R.x - P.x = 0 := h1
      have e2 : R.y - P.y = 0 := h2
      have e3 : R.z - P.z = 0 := h3
      refine hnd ⟨?_, ?_, ?_⟩
      · show (Q.y - P.y) * (R.z - P.z) - (Q.z - P.z) * (R.y - P.y) = 0
        rw [e3, e2]; ring
      · show (Q.z - P.z) * (R.x - P.x) - (Q.x - P.x) * (R.z - P.z) = 0
        rw [e1, e3]; ring
      · show (Q.x - P.x) * (R.y - P.y) - (Q.y - P.y) * (R.x - P.x) = 0
        rw [e2, e1]; ring
    have hsd : lexsign3 (vsub R P) ≠ 0 := fun h => hend ((lexsign3_zero_iff _).mp h)
    have hc_eq : vsub R O = smul3 al (vsub R P) := by
      refine point3_ext _ _ ?_ ?_ ?_
      · show R.x - O.x = al * (R.x - P.x); rw [hOx]; ring
      · show R.y - O.y = al * (R.y - P.y); rw [hOy]; ring
      · show R.z - O.z = al * (R.z - P.z); rw [hOz]; ring
    have ha_eq : vsub P O = smul3 (-(1 - al - 0)) (vsub R P) := by
      refine point3_ext _ _ ?_ ?_ ?_
      · show P.x - O.x = (-(1 - al - 0)) * (R.x - P.x); rw [hOx]; ring
      · show P.y - O.y = (-(1 - al - 0)) * (R.y - P.y); rw [hOy]; ring
      · show P.z - O.z = (-(1 - al - 0)) * (R.z - P.z); rw [hOz]; ring
    have hvs3 : vertex_sign R O = some (lexsign3 (vsub R P)) := by
      rw [vertex_sign_eq, hc_eq, lexsign3_smul al (vsub R P) hal0, nzOpt, if_neg hsd]
    have hvs1 : vertex_sign P O = some (-(lexsign3 (vsub R P))) := by
      rw [vertex_sign_eq, ha_eq, lexsign3_smul_neg (-(1 - al - 0)) (vsub R P) (by linarith),
        nzOpt, if_neg (neg_ne_zero.mpr hsd)]
    cases hvs2 : vertex_sign Q O with
    | none => exact triangle_chain_none_of_vs P Q R O (Or.inr (Or.inl hvs2))
    | some s2 =>
      refine triangle_chain_none_of_edge3 P Q R O (-(lexsign3 (vsub R P))) s2
        (lexsign3 (vsub R P)) hvs1 hvs2 hvs3 (by omega) ?_
      rw [edge_sign_eq_cascade, k3, smul3_zero]
      exact cascadeSign_zero3
  -- al > 0, be > 0, ga = 0: O strictly inside edge PQ
  · have hga0' : (1 : ℚ) - al - be = 0 := hga0.symm
    have hend : ¬((vsub P Q).x = 0 ∧ (vsub P Q).y = 0 ∧ (vsub P Q).z = 0) := by
      rintro ⟨h1, h2, h3⟩
      have e1 : P.x - Q.x = 0 := h1
      have e2 : P.y - Q.y = 0 := h2
      have e3 : P.z - Q.z = 0 := h3
      refine hnd ⟨?_, ?_, ?_⟩
      · show (Q.y - P.y) * (R.z - P.z) - (Q.z - P.z) * (R.y - P.y) = 0
        rw [show Q.y - P.y = 0 from by linarith, show Q.z - P.z = 0 from by linarith]
        ring
      · show (Q.z - P.z) * (R.x - P.x) - (Q.x - P.x) * (R.z - P.z) = 0
        rw [show Q.z - P.z = 0 from by linarith, show Q.x - P.x = 0 from by linarith]
        ring
      · show (Q.x - P.x) * (R.y - P.y) - (Q.y - P.y) * (R.x - P.x) = 0
        rw [show Q.x - P.x = 0 from by linarith, show Q.y - P.y = 0 from by linarith]
        ring
    have hsd : lexsign3 (vsub P Q) ≠ 0 := fun h => hend ((lexsign3_zero_iff _).mp h)
    have ha_eq : vsub P O = smul3 be (vsub P Q) := by
      refine point3_ext _ _ ?_ ?_ ?_
      · show P.x - O.x = be * (P.x - Q.x)
        rw [hOx]; linear_combination (R.x - P.x) * hga0
      · show P.y - O.y = be * (P.y - Q.y)
        rw [hOy]; linear_combination (R.y - P.y) * hga0
      · show P.z - O.z = be * (P.z - Q.z)
        rw [hOz]; linear_combination (R.z - P.z) * hga0
    have hb_eq : vsub Q O = smul3 (-al) (vsub P Q) := by
      refine point3_ext _ _ ?_ ?_ ?_
      · show Q.x - O.x = (-al) * (P.x - Q.x)
        rw [hOx]; linear_combination (R.x - Q.x) * hga0
      · show Q.y - O.y = (-al) * (P.y - Q.y)
        rw [hOy]; linear_combination (R.y - Q.y) * hga0
      · show Q.z - O.z = (-al) * (P.z - Q.z)
        rw [hOz]; linear_combination (R.z - Q.z) * hga0
    have hvs1 : vertex_sign P O = some (lexsign3 (vsub P Q)) := by
      rw [vertex_sign_eq, ha_eq, lexsign3_smul be (vsub P Q) hbe0, nzOpt, if_neg hsd]
    have hvs2 : vertex_sign Q O = some (-(lexsign3 (vsub P Q))) := by
      rw [vertex_sign_eq, hb_eq, lexsign3_smul_neg (-al) (vsub P Q) (by linarith), nzOpt,
        if_neg (neg_ne_zero.mpr hsd)]
    cases hvs3 : vertex_sign R O with
    | none => exact triangle_chain_none_of_vs P Q R O (Or.inr (Or.inr hvs3))
    | some s3 =>
      refine triangle_chain_none_of_edge1 P Q R O (lexsign3 (vsub P Q))
        (-(lexsign3 (vsub P Q))) s3 hvs1 hvs2 hvs3 (by omega) ?_
      rw [edge_sign_eq_cascade, k1, hga0', smul3_zero]
      exact cascadeSign_zero3
  -- al > 0, be > 0, ga > 0: O in the open interior, coplanar
  · have rel_x : al * (P.x - O.x) + be * (Q.x - O.x) + (1 - al - be) * (R.x - O.x) = 0 := by
      rw [hOx]; ring
    have rel_y : al * (P.y - O.y) + be * (Q.y - O.y) + (1 - al - be) * (R.y - O.y) = 0 := by
      rw [hOy]; ring
    have rel_z : al * (P.z - O.z) + be * (Q.z - O.z) + (1 - al - be) * (R.z - O.z) = 0 := by
      rw [hOz]; ring
    obtain ⟨s, hcs, hs0⟩ := cascadeSign_some (cross (vsub Q P) (vsub R P)) hnd
    have he12 : edge_sign P Q O = some s := by
      rw [edge_sign_eq_cascade, k1, cascadeSign_smul (1 - al - be) hga0]; exact hcs
    have he23 : edge_sign Q R O = some s := by
      rw [edge_sign_eq_cascade, k2, cascadeSign_smul al hal0]; exact hcs
    have he31 : edge_sign R P O = some s := by
      rw [edge_sign_eq_cascade, k3, cascadeSign_smul be hbe0]; exact hcs
    have hNne : ∀ t : ℚ, t ≠ 0 →
        ¬((smul3 t (cross (vsub Q P) (vsub R P))).x = 0 ∧
          (smul3 t (cross (vsub Q P) (vsub R P))).y = 0 ∧
          (smul3 t (cross (vsub Q P) (vsub R P))).z = 0) := by
      rintro t ht ⟨h1, h2, h3⟩
      exact hnd ⟨(mul_eq_zero.mp h1).resolve_left ht, (mul_eq_zero.mp h2).resolve_left ht,
        (mul_eq_zero.mp h3).resolve_left ht⟩
    have ha_ne : lexsign3 (vsub P O) ≠ 0 := by
      intro h
      obtain ⟨h1, h2, h3⟩ := (lexsign3_zero_iff _).mp h
      have e1 : P.x - O.x = 0 := h1
      have e2 : P.y - O.y = 0 := h2
      have e3 : P.z - O.z = 0 := h3
      apply hNne (1 - al - be) (ne_of_gt hga0)
      rw [← k1]
      refine ⟨?_, ?_, ?_⟩
      · show (P.y - O.y) * (Q.z - O.z) - (P.z - O.z) * (Q.y - O.y) = 0
        rw [e2, e3]; ring
      · show (P.z - O.z) * (Q.x - O.x) - (P.x - O.x) * (Q.z - O.z) = 0
        rw [e3, e1]; ring
      · show (P.x - O.x) * (Q.y - O.y) - (P.y - O.y) * (Q.x - O.x) = 0
        rw [e1, e2]; ring
    have hb_ne : lexsign3 (vsub Q O) ≠ 0 := by
      intro h
      obtain ⟨h1, h2, h3⟩ := (lexsign3_zero_iff _).mp h
      have e1 : Q.x - O.x = 0 := h1
      have e2 : Q.y - O.y = 0 := h2
      have e3 : Q.z - O.z = 0 := h3
      apply hNne al (ne_of_gt hal0)
      rw [← k2]
      refine ⟨?_, ?_, ?_⟩
      · show (Q.y - O.y) * (R.z - O.z) - (Q.z - O.z) * (R.y - O.y) = 0
        rw [e2, e3]; ring
      · show (Q.z - O.z) * (R.x - O.x) - (Q.x - O.x) * (R.z - O.z) = 0
        rw [e3, e1]; ring
      · show (Q.x - O.x) * (R.y - O.y) - (Q.y - O.y) * (R.x - O.x) = 0
        rw [e1, e2]; ring
    have hc_ne : lexsign3 (vsub R O) ≠ 0 := by
      intro h
      obtain ⟨h1, h2, h3⟩ := (lexsign3_zero_iff _).mp h
      have e1 : R.x - O.x = 0 := h1
      have e2 : R.y - O.y = 0 := h2
      have e3 : R.z - O.z = 0 := h3
      apply hNne be (ne_of_gt hbe0)
      rw [← k3]
      refine ⟨?_, ?_, ?_⟩
      · show (R.y - O.y) * (P.z - O.z) - (R.z - O.z) * (P.y - O.y) = 0
        rw [e2, e3]; ring
      · show (R.z - O.z) * (P.x - O.x) - (R.x - O.x) * (P.z - O.z) = 0
        rw [e3, e1]; ring
      · show (R.x - O.x) * (P.y - O.y) - (R.y - O.y) * (P.x - O.x) = 0
        rw [e1, e2]; ring
    have hvs1 : vertex_sign P O = some (lexsign3 (vsub P O)) := by
      rw [vertex_sign_eq, nzOpt, if_neg ha_ne]
    have hvs2 : vertex_sign Q O = some (lexsign3 (vsub Q O)) := by
      rw [vertex_sign_eq, nzOpt, if_neg hb_ne]
    have hvs3 : vertex_sign R O = some (lexsign3 (vsub R O)) := by
      rw [vertex_sign_eq, nzOpt, if_neg hc_ne]
    have hnotall : ¬(lexsign3 (vsub P O) = lexsign3 (vsub Q O) ∧
        lexsign3 (vsub Q O) = lexsign3 (vsub R O)) := by
      rintro ⟨h12, h23⟩
      rcases vertex_sign_pm P O _ hvs1 with hone | hmone
      · exact no_pos_combo (vsub P O) (vsub Q O) (vsub R O) al be (1 - al - be)
          hal0 hbe0 hga0 rel_x rel_y rel_z hone (h12 ▸ hone) ((h12.trans h23) ▸ hone)
      · refine no_pos_combo (smul3 (-1) (vsub P O)) (smul3 (-1) (vsub Q O))
          (smul3 (-1) (vsub R O)) al be (1 - al - be) hal0 hbe0 hga0 ?_ ?_ ?_ ?_ ?_ ?_
        · show al * ((-1) * (P.x - O.x)) + be * ((-1) * (Q.x - O.x)) +
            (1 - al - be) * ((-1) * (R.x - O.x)) = 0
          linear_combination (-1 : ℚ) * rel_x
        · show al * ((-1) * (P.y - O.y)) + be * ((-1) * (Q.y - O.y)) +
            (1 - al - be) * ((-1) * (R.y - O.y)) = 0
          linear_combination (-1 : ℚ) * rel_y
        · show al * ((-1) * (P.z - O.z)) + be * ((-1) * (Q.z - O.z)) +
            (1 - al - be) * ((-1) * (R.z - O.z)) = 0
          linear_combination (-1 : ℚ) * rel_z
        · rw [lexsign3_negate, hmone]; norm_num
        · rw [lexsign3_negate, ← h12, hmone]; norm_num
        · rw [lexsign3_negate, ← h23, ← h12, hmone]; norm_num
    have htsign : triangle_sign P Q R O = none := by
      unfold triangle_sign
      rw [show ((P.x - O.x) * (Q.y - O.y) - (P.y - O.y) * (Q.x - O.x)) * (R.z - O.z) +
          ((Q.x - O.x) * (R.y - O.y) - (Q.y - O.y) * (R.x - O.x)) * (P.z - O.z) +
          ((R.x - O.x) * (P.y - O.y) - (R.y - O.y) * (P.x - O.x)) * (Q.z - O.z) = 0 from by
        rw [hOx, hOy, hOz]; ring]
      rfl
    exact triangle_chain_none_interior P Q R O (lexsign3 (vsub P O)) (lexsign3 (vsub Q O))
      (lexsign3 (vsub R O)) s hvs1 hvs2 hvs3 hnotall hs0 he12 he23 he31 htsign

theorem sumChains_eq_none_of_mem (tris : List (Point3 × Point3 × Point3)) (O : Point3)
    (t : Point3 × Point3 × Point3) (ht : t ∈ tris)
    (hn : triangle_chain t.1 t.2.1 t.2.2 O = none) : sumChains tris O = none := by
  induction tris with
  | nil => exact absurd ht (List.not_mem_nil t)
  | cons t' rest ih =>
    rcases List.mem_cons.mp ht with rfl | hmem
    · rw [sumChains_cons, hn]
      cases sumChains rest O <;> rfl
    · rw [sumChains_cons, ih hmem]
      cases triangle_chain t'.1 t'.2.1 t'.2.2 O <;> rfl

/-- The union of the four closed faces of the test suite's tetrahedron
(vertices (0,0,0), (0,1,1), (1,0,1), (1,1,0); triangles
[0,1,3], [0,2,1], [0,3,2], [1,2,3]). -/
def OnTetraFace (O : Point3) : Prop :=
  onTriangle ⟨0, 0, 0⟩ ⟨0, 1, 1⟩ ⟨1, 1, 0⟩ O ∨
  onTriangle ⟨0, 0, 0⟩ ⟨1, 0, 1⟩ ⟨0, 1, 1⟩ O ∨
  onTriangle ⟨0, 0, 0⟩ ⟨1, 1, 0⟩ ⟨1, 0, 1⟩ O ∨
  onTriangle ⟨0, 1, 1⟩ ⟨1, 0, 1⟩ ⟨1, 1, 0⟩ O

/-- Claim C7: for the tetrahedron with vertex positions (0,0,0), (0,1,1),
(1,0,1), (1,1,0) and triangles [[0,1,3],[0,2,1],[0,3,2],[1,2,3]],
`Polyhedron.winding_number` returns 1 at (3/10, 3/10, 3/10), returns 0 at
(2, 2, 2), and raises a boundary error at every point lying exactly on one of
its four faces. -/
theorem tetrahedron_c7 :
    Polyhedron.winding_number tetrahedron ⟨3/10, 3/10, 3/10⟩ = some 1
    ∧ Polyhedron.winding_number tetrahedron ⟨2, 2, 2⟩ = some 0
    ∧ ∀ O : Point3, OnTetraFace O → Polyhedron.winding_number tetrahedron O = none := by
  refine ⟨?_, ?_, ?_⟩
  · norm_num [Polyhedron.winding_number, meshChainSum, triangle_positions, tetrahedron,
      lookupTris, sumChains, triangle_chain, vertex_sign, edge_sign, triangle_sign,
      sign, orI, nzOpt]
  · norm_num [Polyhedron.winding_number, meshChainSum, triangle_positions, tetrahedron,
      lookupTris, sumChains, triangle_chain, vertex_sign, edge_sign, triangle_sign,
      sign, orI, nzOpt]
  · intro O hO
    have htris : triangle_positions tetrahedron =
        some [(⟨0, 0, 0⟩, ⟨0, 1, 1⟩, ⟨1, 1, 0⟩), (⟨0, 0, 0⟩, ⟨1, 0, 1⟩, ⟨0, 1, 1⟩),
          (⟨0, 0, 0⟩, ⟨1, 1, 0⟩, ⟨1, 0, 1⟩), (⟨0, 1, 1⟩, ⟨1, 0, 1⟩, ⟨1, 1, 0⟩)] := rfl
    have hsum : sumChains [(⟨0, 0, 0⟩, ⟨0, 1, 1⟩, ⟨1, 1, 0⟩),
        (⟨0, 0, 0⟩, ⟨1, 0, 1⟩, ⟨0, 1, 1⟩), (⟨0, 0, 0⟩, ⟨1, 1, 0⟩, ⟨1, 0, 1⟩),
        (⟨0, 1, 1⟩, ⟨1, 0, 1⟩, ⟨1, 1, 0⟩)] O = none := by
      rcases hO with h | h | h | h
      · exact sumChains_eq_none_of_mem _ O (⟨0, 0, 0⟩, ⟨0, 1, 1⟩, ⟨1, 1, 0⟩)
          (List.mem_cons_self _ _)
          (triangle_chain_none_of_onTriangle _ _ _ O
            (by norm_num [nondegenerate, cross, vsub]) h)
      · exact sumChains_eq_none_of_mem _ O (⟨0, 0, 0⟩, ⟨1, 0, 1⟩, ⟨0, 1, 1⟩)
          (List.mem_cons_of_mem _ (List.mem_cons_self _ _))
          (triangle_chain_none_of_onTriangle _ _ _ O
            (by norm_num [nondegenerate, cross, vsub]) h)
      · exact sumChains_eq_none_of_mem _ O (⟨0, 0, 0⟩, ⟨1, 1, 0⟩, ⟨1, 0, 1⟩)
          (List.mem_cons_of_mem _ (List.mem_cons_of_mem _ (List.mem_cons_self _ _)))
          (triangle_chain_none_of_onTriangle _ _ _ O
            (by norm_num [nondegenerate, cross, vsub]) h)
      · exact sumChains_eq_none_of_mem _ O (⟨0, 1, 1⟩, ⟨1, 0, 1⟩, ⟨1, 1, 0⟩)
          (List.mem_cons_of_mem _ (List.mem_cons_of_mem _ (List.mem_cons_of_mem _
            (List.mem_cons_self _ _))))
          (triangle_chain_none_of_onTriangle _ _ _ O
            (by norm_num [nondegenerate, cross, vsub]) h)
    simp only [Polyhedron.winding_number, meshChainSum, htris, hsum]

/-- Witness for C7's universally quantified boundary clause at the centroid
(2/3, 2/3, 2/3) of the face with vertices (0,1,1), (1,0,1), (1,1,0). -/
theorem tetrahedron_c7_witness :
    OnTetraFace ⟨2/3, 2/3, 2/3⟩
    ∧ Polyhedron.winding_number tetrahedron ⟨2/3, 2/3, 2/3⟩ = none := by
  have hface : OnTetraFace ⟨2/3, 2/3, 2/3⟩ :=
    Or.inr (Or.inr (Or.inr ⟨1/3, 1/3, 1/3, by norm_num, by norm_num, by norm_num,
      by norm_num, by norm_num, by norm_num, by norm_num⟩))
  exact ⟨hface, tetrahedron_c7.2.2 ⟨2/3, 2/3, 2/3⟩ hface⟩
